import Mathlib

/-!
# hippofarmer: deployment script and network tables

A shallow embedding of `deploy.js`, `tronbox.js` and `tronbox-config.js`.

* JavaScript strings are sequences of UTF-16 code units (`JsString`).
* The values the scripts' own expressions produce are the primitives of `JsValue`;
  their numbers are the small non-negative integers the sources write.
* A value handed over by the network client is a `JsData`: any value, as
  `JSON.stringify` treats it.
* `JSON.stringify` and `JSON.parse` are the runtime's built-ins, embedded after
  ECMA-262 (`QuoteJSONString`, `SerializeJSONProperty`, `SerializeJSONObject`,
  `SerializeJSONArray`, `Number::toString`) and the JSON grammar.
* The network client, the file system and the console are explicit parts of the
  state the deployer runs in.
-/

namespace Hippo

/-! ## Strings and values -/

/-- A JavaScript string: its UTF-16 code units. -/
abbrev JsString := List Nat

/-- The code units of a source literal (all literals of the sources are ASCII). -/
def lit (s : String) : JsString := s.toList.map Char.toNat

/-- The primitive values the scripts' own expressions produce. A `num` is a
non-negative integral Number below `2^53`, as all numbers of the sources are; such
a Number is the integer itself, and the products the sources write are exact. -/
inductive JsValue where
  | undefined
  | null
  | bool (b : Bool)
  | num (n : Fin 9007199254740992)
  | str (s : JsString)
  deriving DecidableEq, Repr

/-- An object literal: its own properties in insertion order. -/
abbrev Record := List (JsString × JsValue)

/-- Property read `o[k]`: the value of the property, `undefined` when absent. -/
def Record.get (o : Record) (k : JsString) : JsValue :=
  match o.lookup k with
  | some v => v
  | none => JsValue.undefined

/-- The decimal representation of a natural number, without leading zeros. -/
def decimal (n : Nat) : JsString := (Nat.toDigits 10 n).map Char.toNat

/-- The text `Number::toString` gives a `num`: for an integral Number below `2^53`,
its decimal representation. -/
def numberToString (n : Fin 9007199254740992) : JsString := decimal n.val

/-- The abstract operation `ToString` on the modelled values. -/
def toStr : JsValue → JsString
  | JsValue.undefined => lit "undefined"
  | JsValue.null => lit "null"
  | JsValue.bool true => lit "true"
  | JsValue.bool false => lit "false"
  | JsValue.num n => numberToString n
  | JsValue.str s => s

/-- The abstract operation `ToBoolean` on the modelled values. -/
def truthy : JsValue → Bool
  | JsValue.undefined => false
  | JsValue.null => false
  | JsValue.bool b => b
  | JsValue.num n => n != 0
  | JsValue.str s => !s.isEmpty

/-- The operator `a || b`. -/
def jsOr (a b : JsValue) : JsValue := if truthy a then a else b

/-- The operator `s + v` with a string on the left: concatenation with `ToString v`. -/
def strPlus (s : JsString) (v : JsValue) : JsString := s ++ toStr v

/-! ## Values handed over by the network client -/

/-- A value that is thrown, or that a promise is rejected with. Reading a property
of `undefined` or `null` throws; for any other value `message` is what reading its
property `message` yields (`undefined` when it has none). -/
inductive Thrown where
  | undefined
  | null
  | value (message : JsValue)
  deriving DecidableEq, Repr

/-- A built-in error (`ReferenceError`, `TypeError`, a file-system error) with its message. -/
def Thrown.error (message : String) : Thrown := Thrown.value (JsValue.str (lit message))

/-- The read `error.message`. -/
def Thrown.message : Thrown → Except Thrown JsValue
  | Thrown.undefined =>
    Except.error (Thrown.error "Cannot read properties of undefined (reading \x27message\x27)")
  | Thrown.null =>
    Except.error (Thrown.error "Cannot read properties of null (reading \x27message\x27)")
  | Thrown.value m => Except.ok m

/-- A Number, as `Number::toString` sees it. A finite Number other than zero is
given by the integers `s`, `k`, `n` of that operation: `lead` and `digits` are the
`k` decimal digits of `s` (the first one is `lead + 1`, so it is not a zero), and
the Number is `s × 10 ^ (n - k)`, negated when `negative`. Every such Number is one
of these triples; the type has more triples than there are Numbers. -/
inductive JsNumber where
  | nan
  | infinity (negative : Bool)
  | zero
  | finite (negative : Bool) (lead : Fin 9) (digits : List (Fin 10)) (n : Int)

/-- A finite Number. -/
def JsNumber.isFinite : JsNumber → Bool
  | JsNumber.nan => false
  | JsNumber.infinity _ => false
  | JsNumber.zero => true
  | JsNumber.finite _ _ _ _ => true

/-- The code units of the `k` digits of `s`. -/
def JsNumber.significand (lead : Fin 9) (digits : List (Fin 10)) : JsString :=
  (49 + lead.val) :: digits.map (fun d => 48 + d.val)

/-- The text of a positive Number with the digits `ds` and the exponent `n`: plain
decimal notation for `n` from -5 to 21, scientific notation otherwise. -/
def JsNumber.magnitude (ds : JsString) (n : Int) : JsString :=
  if -5 ≤ n ∧ n ≤ 21 then
    if (ds.length : Int) ≤ n then ds ++ List.replicate (n.toNat - ds.length) 48
    else if 0 < n then ds.take n.toNat ++ 46 :: ds.drop n.toNat
    else 48 :: 46 :: (List.replicate (-n).toNat 48 ++ ds)
  else
    (match ds with
      | [] => []
      | [d] => [d]
      | d :: rest => d :: 46 :: rest) ++
      101 :: (if n - 1 < 0 then 45 else 43) :: decimal (n - 1).natAbs

/-- The operation `Number::toString` with radix 10. -/
def JsNumber.toString : JsNumber → JsString
  | JsNumber.nan => lit "NaN"
  | JsNumber.infinity false => lit "Infinity"
  | JsNumber.infinity true => lit "-Infinity"
  | JsNumber.zero => lit "0"
  | JsNumber.finite negative lead digits n =>
    (if negative then [45] else []) ++ JsNumber.magnitude (JsNumber.significand lead digits) n

/-- Any value, as `JSON.stringify` treats it: a primitive, an array with its
elements, an object with its enumerable own string-keyed properties in the order
they are visited. A value with a `toJSON` method stands for what that method
returns, a wrapper object for the primitive it wraps; `undefined` also stands for a
function and for a symbol, which are serialized as `undefined` is; `unserializable`
is a value on which the serialization throws `e` (a BigInt, a cyclic structure). -/
inductive JsData where
  | undefined
  | null
  | bool (b : Bool)
  | num (x : JsNumber)
  | str (s : JsString)
  | array (items : List JsData)
  | object (props : List (JsString × JsData))
  | unserializable (e : Thrown)

/-! ## JSON.stringify -/

/-- A lowercase hexadecimal digit. -/
def hexDigit (d : Nat) : Nat := if d < 10 then 48 + d else 87 + d

/-- The escape `\uXXXX` of a code unit (`UnicodeEscape`). -/
def unicodeEscape (c : Nat) : JsString :=
  [92, 117, hexDigit (c / 4096 % 16), hexDigit (c / 256 % 16), hexDigit (c / 16 % 16),
    hexDigit (c % 16)]

/-- A leading (high) surrogate. -/
def isLeadingSurrogate (c : Nat) : Bool := 0xD800 ≤ c && c ≤ 0xDBFF

/-- A trailing (low) surrogate. -/
def isTrailingSurrogate (c : Nat) : Bool := 0xDC00 ≤ c && c ≤ 0xDFFF

/-- The rendering of one code point that is not part of a surrogate pair: the
two-character escapes of the table, `\uXXXX` for the other control characters and
for lone surrogates, the code unit itself otherwise. -/
def quoteUnit (c : Nat) : JsString :=
  if c = 8 then [92, 98]
  else if c = 9 then [92, 116]
  else if c = 10 then [92, 110]
  else if c = 12 then [92, 102]
  else if c = 13 then [92, 114]
  else if c = 34 then [92, 34]
  else if c = 92 then [92, 92]
  else if c < 32 || isLeadingSurrogate c || isTrailingSurrogate c then unicodeEscape c
  else [c]

/-- The body of `QuoteJSONString`: the string is read code point by code point, a
leading surrogate directly followed by a trailing one being one code point, which
is copied. -/
def quoteBody : JsString → JsString
  | [] => []
  | [c] => quoteUnit c
  | c :: d :: rest =>
    if isLeadingSurrogate c && isTrailingSurrogate d then c :: d :: quoteBody rest
    else quoteUnit c ++ quoteBody (d :: rest)

/-- The operation `QuoteJSONString`. -/
def quoteJSONString (s : JsString) : JsString := 34 :: (quoteBody s ++ [34])

/-- Joins the members with the separator. -/
def joinWith (sep : JsString) : List JsString → JsString
  | [] => []
  | [m] => m
  | m :: ms => m ++ sep ++ joinWith sep ms

/-- The text of an array or object with the given brackets: the brackets alone when
it has no members; otherwise, with the gap of two spaces, each member on a line of
its own at the new indentation and the closing bracket at the old one. -/
def wrapMembers (opening closing : Nat) (indent : JsString) (partialList : List JsString) :
    JsString :=
  match partialList with
  | [] => [opening, closing]
  | ms => opening :: 10 :: (indent ++ [32, 32]) ++
      joinWith (44 :: 10 :: (indent ++ [32, 32])) ms ++ 10 :: indent ++ [closing]

mutual
/-- The operation `SerializeJSONProperty` with a gap of two spaces, at the
indentation `indent`: the text of the value, `none` for a value that is left out
(`undefined`), an error when the serialization throws. -/
def serializeJSONProperty (indent : JsString) : JsData → Except Thrown (Option JsString)
  | JsData.undefined => Except.ok none
  | JsData.null => Except.ok (some (lit "null"))
  | JsData.bool true => Except.ok (some (lit "true"))
  | JsData.bool false => Except.ok (some (lit "false"))
  | JsData.num x => Except.ok (some (if x.isFinite then x.toString else lit "null"))
  | JsData.str s => Except.ok (some (quoteJSONString s))
  | JsData.array items =>
    match serializeElements (indent ++ [32, 32]) items with
    | Except.error e => Except.error e
    | Except.ok partialList => Except.ok (some (wrapMembers 91 93 indent partialList))
  | JsData.object props =>
    match serializeMembers (indent ++ [32, 32]) props with
    | Except.error e => Except.error e
    | Except.ok partialList => Except.ok (some (wrapMembers 123 125 indent partialList))
  | JsData.unserializable e => Except.error e
/-- The elements of `SerializeJSONArray`: the text of each element, `null` for an
element that would be left out. -/
def serializeElements (indent : JsString) : List JsData → Except Thrown (List JsString)
  | [] => Except.ok []
  | v :: rest =>
    match serializeJSONProperty indent v with
    | Except.error e => Except.error e
    | Except.ok strP =>
      match serializeElements indent rest with
      | Except.error e => Except.error e
      | Except.ok partialList => Except.ok (strP.getD (lit "null") :: partialList)
/-- The members of `SerializeJSONObject`: the quoted key, a colon, a space, the
text of the value; a property whose value is left out is left out. -/
def serializeMembers (indent : JsString) :
    List (JsString × JsData) → Except Thrown (List JsString)
  | [] => Except.ok []
  | (k, v) :: rest =>
    match serializeJSONProperty indent v with
    | Except.error e => Except.error e
    | Except.ok none => serializeMembers indent rest
    | Except.ok (some strP) =>
      match serializeMembers indent rest with
      | Except.error e => Except.error e
      | Except.ok partialList =>
        Except.ok ((quoteJSONString k ++ 58 :: 32 :: strP) :: partialList)
end

/-- The call `JSON.stringify(value, null, 2)`: the gap is two spaces, the value is
at the top level (empty indentation). The result is `none` when the call returns
`undefined`. -/
def stringify2 (value : JsData) : Except Thrown (Option JsString) :=
  serializeJSONProperty [] value

/-! ## JSON.parse -/

/-- A parsed JSON text. A number keeps its lexeme. -/
inductive Json where
  | null
  | bool (b : Bool)
  | num (lexeme : JsString)
  | str (s : JsString)
  | arr (items : List Json)
  | obj (members : List (JsString × Json))

/-- JSON white space: space, tab, line feed, carriage return. -/
def isWs (c : Nat) : Bool := c = 32 || c = 9 || c = 10 || c = 13

/-- Drops leading white space. -/
def skipWs : List Nat → List Nat
  | [] => []
  | c :: rest => if isWs c then skipWs rest else c :: rest

/-- The value of a hexadecimal digit, of either case. -/
def hexValue (c : Nat) : Option Nat :=
  if 48 ≤ c ∧ c ≤ 57 then some (c - 48)
  else if 97 ≤ c ∧ c ≤ 102 then some (c - 87)
  else if 65 ≤ c ∧ c ≤ 70 then some (c - 55)
  else none

/-- The character a two-character escape stands for. -/
def unescape (e : Nat) : Option Nat :=
  if e = 34 then some 34
  else if e = 92 then some 92
  else if e = 47 then some 47
  else if e = 98 then some 8
  else if e = 102 then some 12
  else if e = 110 then some 10
  else if e = 114 then some 13
  else if e = 116 then some 9
  else none

/-- The characters of a JSON string after its opening quote, up to and including
the closing quote: the string's value and the rest of the input. -/
def parseChars : List Nat → Option (JsString × List Nat)
  | [] => none
  | c :: rest =>
    if c = 34 then some ([], rest)
    else if c = 92 then
      match rest with
      | [] => none
      | e :: rest1 =>
        if e = 117 then
          match rest1 with
          | h1 :: h2 :: h3 :: h4 :: rest2 =>
            match hexValue h1, hexValue h2, hexValue h3, hexValue h4 with
            | some a, some b, some x, some y =>
              (parseChars rest2).map (fun r => ((((a * 16 + b) * 16 + x) * 16 + y) :: r.1, r.2))
            | _, _, _, _ => none
          | _ => none
        else
          match unescape e with
          | some u => (parseChars rest1).map (fun r => (u :: r.1, r.2))
          | none => none
    else if c < 32 then none
    else (parseChars rest).map (fun r => (c :: r.1, r.2))

/-- A decimal digit. -/
def isDigit (c : Nat) : Bool := 48 ≤ c && c ≤ 57

/-- A non-empty run of digits. -/
def lexDigits (input : List Nat) : Option (JsString × List Nat) :=
  match input.span isDigit with
  | ([], _) => none
  | (ds, rest) => some (ds, rest)

/-- The integer part of a number: a single zero, or digits starting with a non-zero one. -/
def lexInt : List Nat → Option (JsString × List Nat)
  | [] => none
  | d :: rest =>
    if d = 48 then some ([48], rest)
    else if isDigit d then some (d :: (rest.span isDigit).1, (rest.span isDigit).2)
    else none

/-- The optional fraction of a number. -/
def lexFrac : List Nat → Option (JsString × List Nat)
  | 46 :: rest => (lexDigits rest).map (fun r => (46 :: r.1, r.2))
  | input => some ([], input)

/-- The optional exponent of a number. -/
def lexExp : List Nat → Option (JsString × List Nat)
  | [] => some ([], [])
  | e :: rest =>
    if e = 101 || e = 69 then
      match rest with
      | s :: rest1 =>
        if s = 43 || s = 45 then (lexDigits rest1).map (fun r => (e :: s :: r.1, r.2))
        else (lexDigits rest).map (fun r => (e :: r.1, r.2))
      | [] => none
    else some ([], e :: rest)

/-- A JSON number: its lexeme and the rest of the input. -/
def lexNumber (input : List Nat) : Option (JsString × List Nat) :=
  let signed := match input with
    | 45 :: rest => ([45], rest)
    | _ => ([], input)
  match lexInt signed.2 with
  | none => none
  | some (i, r1) =>
    match lexFrac r1 with
    | none => none
    | some (f, r2) =>
      match lexExp r2 with
      | none => none
      | some (x, r3) => some (signed.1 ++ i ++ f ++ x, r3)

/-- The elements of an array after its opening bracket, the first element at the
head of the input, up to and including the closing bracket. -/
def parseElements (pv : List Nat → Option (Json × List Nat)) :
    Nat → List Nat → Option (List Json × List Nat)
  | 0, _ => none
  | n + 1, input =>
    match pv input with
    | none => none
    | some (v, rest) =>
      match skipWs rest with
      | [] => none
      | c :: rest1 =>
        if c = 44 then (parseElements pv n (skipWs rest1)).map (fun r => (v :: r.1, r.2))
        else if c = 93 then some ([v], rest1)
        else none

/-- The members of an object after its opening brace, the first key at the head of
the input, up to and including the closing brace. -/
def parseMembers (pv : List Nat → Option (Json × List Nat)) :
    Nat → List Nat → Option (List (JsString × Json) × List Nat)
  | 0, _ => none
  | n + 1, input =>
    match input with
    | [] => none
    | q :: rest =>
      if q = 34 then
        match parseChars rest with
        | none => none
        | some (k, rest1) =>
          match skipWs rest1 with
          | [] => none
          | c :: rest2 =>
            if c = 58 then
              match pv (skipWs rest2) with
              | none => none
              | some (v, rest3) =>
                match skipWs rest3 with
                | [] => none
                | e :: rest4 =>
                  if e = 44 then
                    (parseMembers pv n (skipWs rest4)).map (fun r => ((k, v) :: r.1, r.2))
                  else if e = 125 then some ([(k, v)], rest4)
                  else none
            else none
      else none

/-- A JSON value at the head of the input; the first argument bounds the nesting
depth and the number of elements of an array or object. -/
def parseValue : Nat → List Nat → Option (Json × List Nat)
  | 0, _ => none
  | n + 1, input =>
    match input with
    | [] => none
    | c :: rest =>
      if c = 123 then
        match skipWs rest with
        | [] => none
        | d :: rest1 =>
          if d = 125 then some (Json.obj [], rest1)
          else (parseMembers (parseValue n) n (d :: rest1)).map (fun r => (Json.obj r.1, r.2))
      else if c = 91 then
        match skipWs rest with
        | [] => none
        | d :: rest1 =>
          if d = 93 then some (Json.arr [], rest1)
          else (parseElements (parseValue n) n (d :: rest1)).map (fun r => (Json.arr r.1, r.2))
      else if c = 34 then (parseChars rest).map (fun r => (Json.str r.1, r.2))
      else if c = 116 then
        match rest with
        | 114 :: 117 :: 101 :: rest1 => some (Json.bool true, rest1)
        | _ => none
      else if c = 102 then
        match rest with
        | 97 :: 108 :: 115 :: 101 :: rest1 => some (Json.bool false, rest1)
        | _ => none
      else if c = 110 then
        match rest with
        | 117 :: 108 :: 108 :: rest1 => some (Json.null, rest1)
        | _ => none
      else (lexNumber (c :: rest)).map (fun r => (Json.num r.1, r.2))

/-- The call `JSON.parse(text)`: one value between optional white space, `none`
for a text that is not JSON (the call throws a `SyntaxError`). -/
def parse (text : JsString) : Option Json :=
  match parseValue (text.length + 1) (skipWs text) with
  | none => none
  | some (v, rest) => if skipWs rest = [] then some v else none

/-- Property read on a parsed value: the member of that name, the last one when
the name is repeated. -/
def Json.member (j : Json) (k : JsString) : Option Json :=
  match j with
  | Json.obj ms => (ms.reverse.lookup k)
  | _ => none

/-! ## The runtime around the scripts -/

/-- The variables of `process.env` (after `dotenv` has merged the `.env` file in):
the value of a variable, `none` when it is not set. -/
abbrev Env := JsString → Option JsString

/-- The read `process.env.NAME`: a string, `undefined` when the variable is not set. -/
def Env.get (env : Env) (name : JsString) : JsValue :=
  match env name with
  | some v => JsValue.str v
  | none => JsValue.undefined

/-- The environment with one variable set (`some v`) or removed (`none`). -/
def Env.set (env : Env) (name : JsString) (v : Option JsString) : Env :=
  fun k => if k = name then v else env k

/-- A `const` binding of the module: in its temporal dead zone until its
initializer has completed. -/
inductive Binding (α : Type) where
  | uninitialized
  | initialized (value : α)

/-- Reading a binding: a `ReferenceError` while it is uninitialized. -/
def Binding.read {α : Type} (name : String) : Binding α → Except Thrown α
  | Binding.uninitialized =>
    Except.error (Thrown.error ("Cannot access \x27" ++ name ++ "\x27 before initialization"))
  | Binding.initialized v => Except.ok v

/-! ## The deployer (`deploy.js`) -/

/-- The compiled contract `build/contracts/HippoBreeds.json`. -/
structure Artifact where
  abi : Json
  bytecode : Json

/-- The argument of `tronWeb.contract().new`. -/
structure DeployOptions where
  abi : Json
  bytecode : Json
  feeLimit : Nat
  callValue : Nat
  userFeePercentage : Nat
  originEnergyLimit : Nat

/-- What the creation call resolves to: `undefined`, `null`, or a value whose
property `address` reads as `address` (`undefined` when it has none). -/
inductive ContractInstance where
  | undefined
  | null
  | handle (address : JsData)

/-- The read `contractInstance.address`. -/
def ContractInstance.address : ContractInstance → Except Thrown JsData
  | ContractInstance.undefined =>
    Except.error (Thrown.error "Cannot read properties of undefined (reading \x27address\x27)")
  | ContractInstance.null =>
    Except.error (Thrown.error "Cannot read properties of null (reading \x27address\x27)")
  | ContractInstance.handle a => Except.ok a

/-- The network client: how `await tronWeb.contract().new(options)` settles, with
the instance it resolves to or the value it throws or rejects with. -/
abbrev Client := DeployOptions → Except Thrown ContractInstance

/-- The argument of the client's constructor. -/
structure ClientConfig where
  fullHost : JsValue
  privateKey : JsValue

/-- What `fs.writeFileSync` does in this run: it writes the data, or it throws a
file-system error with a message and leaves the file in some state. -/
inductive WriteResult where
  | written
  | failed (message : JsString) (left : Option JsString)

/-- The file system as the deployer meets it: the content of
`src/abis/contractAddress.json` (`none` when the file is absent) and the behaviour
of the write. -/
structure World where
  file : Option JsString
  writeFileSync : WriteResult

/-- How a run ends: the function returns, `process.exit` ends the process, or an
exception leaves the function uncaught. -/
inductive Completion where
  | returned
  | exited (code : Nat)
  | threw (error : Thrown)
  deriving DecidableEq, Repr

/-- What a run leaves behind. -/
structure Outcome where
  file : Option JsString
  stdout : List (List JsData)
  stderr : List (List JsValue)
  handle : Option ContractInstance
  completion : Completion

/-- The exit status of the process: 0 when the script runs to its end, the argument
of `process.exit`, 1 for an uncaught exception or an unhandled rejection (the
default of Node.js 15 and later). -/
def exitStatus : Completion → Nat
  | Completion.returned => 0
  | Completion.exited code => code
  | Completion.threw _ => 1

/-- The object literal passed to `tronWeb.contract().new`. -/
def deployOptions (compiledContract : Artifact) : DeployOptions :=
  { abi := compiledContract.abi, bytecode := compiledContract.bytecode,
    feeLimit := 100000000, callValue := 0, userFeePercentage := 1,
    originEnergyLimit := 10000000 }

/-- The `catch` clause of `deployContract`: logs `error.message` on the error
stream and ends the process with status 1. -/
def catchClause (file : Option JsString) (stdout : List (List JsData))
    (handle : Option ContractInstance) (error : Thrown) : Outcome :=
  match error.message with
  | Except.error e =>
    { file := file, stdout := stdout, stderr := [], handle := handle,
      completion := Completion.threw e }
  | Except.ok m =>
    { file := file, stdout := stdout,
      stderr := [[JsValue.str (lit "Error deploying contract:"), m]], handle := handle,
      completion := Completion.exited 1 }

/-- The function `deployContract`, run with the module's binding `tronWeb`, the
compiled contract and the file system, which the function reads from its module.
Everything from the first log line to the last one is inside the `try`. -/
def deployContract (tronWeb : Binding Client) (compiledContract : Artifact) (w : World) :
    Outcome :=
  let log1 := [[JsData.str (lit "Deploying HippoBreeds contract to Tron testnet...")]]
  match tronWeb.read "tronWeb" with
  | Except.error e => catchClause w.file log1 none e
  | Except.ok client =>
    match client (deployOptions compiledContract) with
    | Except.error e => catchClause w.file log1 none e
    | Except.ok contractInstance =>
      let log2 := log1 ++ [[JsData.str (lit "Contract deployed successfully!")]]
      match contractInstance.address with
      | Except.error e => catchClause w.file log2 (some contractInstance) e
      | Except.ok address =>
        let log3 := log2 ++ [[JsData.str (lit "Contract Address:"), address]]
        let contractAddress := JsData.object [(lit "address", address)]
        match stringify2 contractAddress with
        | Except.error e => catchClause w.file log3 (some contractInstance) e
        | Except.ok none =>
          catchClause w.file log3 (some contractInstance)
            (Thrown.error "The \"data\" argument must be of type string")
        | Except.ok (some data) =>
          match w.writeFileSync with
          | WriteResult.failed message left =>
            catchClause left log3 (some contractInstance) (Thrown.value (JsValue.str message))
          | WriteResult.written =>
            { file := some data,
              stdout := log3 ++
                [[JsData.str (lit "Contract address saved to src/abis/contractAddress.json")]],
              stderr := [], handle := some contractInstance,
              completion := Completion.returned }

/-- The initializer of line 12, `tronWeb({ fullHost, privateKey })`: its callee is
the binding `tronWeb` itself; the call is made once the read has completed. -/
def initTronWeb (callee : Binding (ClientConfig → Client)) (config : ClientConfig) :
    Except Thrown Client :=
  match callee.read "tronWeb" with
  | Except.error e => Except.error e
  | Except.ok f => Except.ok (f config)

/-- The module's start-up up to the declaration of `tronWeb`: while its own
initializer runs, the binding is uninitialized. -/
def moduleStartup (env : Env) : Except Thrown Client :=
  initTronWeb Binding.uninitialized
    { fullHost := JsValue.str (lit "https://nile.trongrid.io"),
      privateKey := env.get (lit "PRIVATE_KEY") }

/-- The script `deploy.js`: the module's start-up, then the call `deployContract()`
of its last line. An exception of the start-up ends the run before that call. -/
def runScript (env : Env) (compiledContract : Artifact) (w : World) : Outcome :=
  match moduleStartup env with
  | Except.error e =>
    { file := w.file, stdout := [], stderr := [], handle := none,
      completion := Completion.threw e }
  | Except.ok client => deployContract (Binding.initialized client) compiledContract w

/-! ## The network tables (`tronbox.js`, `tronbox-config.js`) -/

/-- The entry of the table `networks` under the key `name`: the record the object
literal defines for it, `none` when the literal has no such key. -/
def selectProfile (networks : List (JsString × Record)) (name : JsString) : Option Record :=
  networks.lookup name

/-- The names of the properties of `Object.prototype`, which every object literal
inherits. -/
def objectPrototypeNames : List JsString :=
  [lit "constructor", lit "__defineGetter__", lit "__defineSetter__", lit "hasOwnProperty",
    lit "__lookupGetter__", lit "__lookupSetter__", lit "isPrototypeOf",
    lit "propertyIsEnumerable", lit "toString", lit "valueOf", lit "__proto__",
    lit "toLocaleString"]

/-- What a property read on a table yields: the record of one of its own keys, a
member inherited from `Object.prototype` (a function, or the prototype itself for
`__proto__`), or `undefined`. -/
inductive Selected where
  | record (r : Record)
  | inherited (name : JsString)
  | undefined
  deriving DecidableEq, Repr

/-- The property read `networks[name]` on the object literal: an own key first,
then the prototype, `undefined` when neither has the name. -/
def readProfile (networks : List (JsString × Record)) (name : JsString) : Selected :=
  match selectProfile networks name with
  | some r => Selected.record r
  | none =>
    if name ∈ objectPrototypeNames then Selected.inherited name else Selected.undefined

namespace Tronbox

/-- The constant `port` of `tronbox.js`: `process.env.HOST_PORT || 9090`. -/
def port (env : Env) : JsValue := jsOr (env.get (lit "HOST_PORT")) (JsValue.num 9090)

/-- The table `module.exports.networks` of `tronbox.js`. -/
def networks (env : Env) : List (JsString × Record) :=
  [ (lit "mainnet",
      [ (lit "privateKey", env.get (lit "PRIVATE_KEY_MAINNET")),
        (lit "userFeePercentage", JsValue.num 100),
        (lit "feeLimit", JsValue.num (1000 * 1000000)),
        (lit "fullHost", JsValue.str (lit "https://api.trongrid.io")),
        (lit "network_id", JsValue.str (lit "1")) ]),
    (lit "shasta",
      [ (lit "privateKey", env.get (lit "PRIVATE_KEY_SHASTA")),
        (lit "userFeePercentage", JsValue.num 50),
        (lit "feeLimit", JsValue.num (1000 * 1000000)),
        (lit "fullHost", JsValue.str (lit "https://api.shasta.trongrid.io")),
        (lit "network_id", JsValue.str (lit "2")) ]),
    (lit "nile",
      [ (lit "privateKey", env.get (lit "PRIVATE_KEY_NILE")),
        (lit "userFeePercentage", JsValue.num 100),
        (lit "feeLimit", JsValue.num (1000 * 1000000)),
        (lit "fullHost", JsValue.str (lit "https://nile.trongrid.io")),
        (lit "network_id", JsValue.str (lit "3")) ]),
    (lit "development",
      [ (lit "privateKey", JsValue.str
          (lit "0000000000000000000000000000000000000000000000000000000000000001")),
        (lit "userFeePercentage", JsValue.num 0),
        (lit "feeLimit", JsValue.num (1000 * 1000000)),
        (lit "fullHost", JsValue.str (strPlus (lit "http://127.0.0.1:") (port env))),
        (lit "network_id", JsValue.str (lit "9")) ]) ]

end Tronbox

namespace TronboxConfig

/-- The table `module.exports.networks` of `tronbox-config.js`. -/
def networks (env : Env) : List (JsString × Record) :=
  [ (lit "shasta",
      [ (lit "privateKey", env.get (lit "PRIVATE_KEY")),
        (lit "consume_user_resource_percent", JsValue.num 30),
        (lit "fee_limit", JsValue.num 1000000000),
        (lit "fullHost", JsValue.str (lit "https://api.shasta.trongrid.io")),
        (lit "network_id", JsValue.str (lit "*")) ]),
    (lit "mainnet",
      [ (lit "privateKey", env.get (lit "PRIVATE_KEY")),
        (lit "consume_user_resource_percent", JsValue.num 30),
        (lit "fee_limit", JsValue.num 1000000000),
        (lit "fullHost", JsValue.str (lit "https://api.trongrid.io")),
        (lit "network_id", JsValue.str (lit "*")) ]) ]

end TronboxConfig

/-! ## Notions the properties are stated with -/

/-- The text is a JSON object with a member `address` whose value is a non-empty string. -/
def hasNonEmptyAddress (text : JsString) : Prop :=
  ∃ ms a, parse text = some (Json.obj ms) ∧
    (Json.obj ms).member (lit "address") = some (Json.str a) ∧ a ≠ []

mutual
/-- The JSON value a value is stored as; `none` for a value that is left out. -/
def storedAs : JsData → Option Json
  | JsData.undefined => none
  | JsData.null => some Json.null
  | JsData.bool b => some (Json.bool b)
  | JsData.num x => some (if x.isFinite then Json.num x.toString else Json.null)
  | JsData.str s => some (Json.str s)
  | JsData.array items => some (Json.arr (storedElements items))
  | JsData.object props => some (Json.obj (storedMembers props))
  | JsData.unserializable _ => none
/-- The JSON values the elements of an array are stored as. -/
def storedElements : List JsData → List Json
  | [] => []
  | v :: rest => (storedAs v).getD Json.null :: storedElements rest
/-- The JSON members the properties of an object are stored as. -/
def storedMembers : List (JsString × JsData) → List (JsString × Json)
  | [] => []
  | (k, v) :: rest =>
    match storedAs v with
    | none => storedMembers rest
    | some j => (k, j) :: storedMembers rest
end

/-- The limits of a profile record: a resource-consumption percent that is a whole
number from 0 to 100, a fee limit of 1000000000, a network identifier that is a string. -/
def withinLimits (percentField feeField : JsString) (r : Record) : Prop :=
  (∃ p, r.get percentField = JsValue.num p ∧ p ≤ 100) ∧
  r.get feeField = JsValue.num 1000000000 ∧
  ∃ s, r.get (lit "network_id") = JsValue.str s

/-- The profile's signing key is read from the variable `envVar`: whatever the
environment, the profile's `privateKey` is the value of that variable. -/
def readsKeyFrom (networks : Env → List (JsString × Record)) (name envVar : JsString) :
    Prop :=
  ∀ env : Env, ∃ r, selectProfile (networks env) name = some r ∧
    r.get (lit "privateKey") = env.get envVar

/-! ## Notions the proofs are stated with -/

/-- The integer part of a JSON number: a zero, or digits that do not start with one. -/
def IsInt (int : JsString) : Prop :=
  int = [48] ∨ ∃ d ds, int = d :: ds ∧ isDigit d = true ∧ d ≠ 48 ∧ ∀ c ∈ ds, isDigit c = true

/-- The fraction of a JSON number: nothing, or a point and digits. -/
def IsFrac (frac : JsString) : Prop :=
  frac = [] ∨ ∃ ds, frac = 46 :: ds ∧ ds ≠ [] ∧ ∀ c ∈ ds, isDigit c = true

/-- The exponent of a JSON number, as `Number::toString` writes it: nothing, or
`e`, a sign and digits. -/
def IsExp (exp : JsString) : Prop :=
  exp = [] ∨ ∃ sg ds, exp = 101 :: sg :: ds ∧ (sg = 43 ∨ sg = 45) ∧ ds ≠ [] ∧
    ∀ c ∈ ds, isDigit c = true

/-- What may follow a value in the text of an array or object: nothing, a line
feed or a comma. -/
def endsValue : List Nat → Bool
  | [] => true
  | c :: _ => c = 10 || c = 44

/-- An indentation: spaces only. -/
def IsIndent (indent : JsString) : Prop := ∀ c ∈ indent, c = 32

/-- A code unit that a serialized value starts with. -/
def StartsValue (c : Nat) : Prop :=
  c = 110 ∨ c = 116 ∨ c = 102 ∨ c = 34 ∨ c = 91 ∨ c = 123 ∨ c = 45 ∨ isDigit c = true

/-- The text is read as the JSON value `j`, with enough fuel and whatever follows
the value. -/
def ParsesTo (text : JsString) (j : Json) : Prop :=
  ∀ m tail, endsValue tail = true →
    parseValue (text.length + m) (text ++ tail) = some (j, tail)

/-- The texts `ms` of the elements of an array, joined at the indentation `indent`
and followed by the closing bracket, are read as the elements `js`. -/
def ElementsParse (indent : JsString) (ms : List JsString) (js : List Json) : Prop :=
  (ms = [] → js = []) ∧
  (ms ≠ [] →
    (∃ c t, joinWith (44 :: 10 :: indent) ms = c :: t ∧ StartsValue c) ∧
    ms.length ≤ (joinWith (44 :: 10 :: indent) ms).length ∧
    ∀ N k stepback tail, IsIndent stepback →
      (joinWith (44 :: 10 :: indent) ms).length ≤ N → ms.length ≤ k →
      parseElements (parseValue N) k
        (joinWith (44 :: 10 :: indent) ms ++ 10 :: (stepback ++ 93 :: tail)) = some (js, tail))

/-- The texts `ms` of the members of an object, joined at the indentation `indent`
and followed by the closing brace, are read as the members `js`. -/
def MembersParse (indent : JsString) (ms : List JsString) (js : List (JsString × Json)) :
    Prop :=
  (ms = [] → js = []) ∧
  (ms ≠ [] →
    (∃ t, joinWith (44 :: 10 :: indent) ms = 34 :: t) ∧
    ms.length ≤ (joinWith (44 :: 10 :: indent) ms).length ∧
    ∀ N k stepback tail, IsIndent stepback →
      (joinWith (44 :: 10 :: indent) ms).length ≤ N → ms.length ≤ k →
      parseMembers (parseValue N) k
        (joinWith (44 :: 10 :: indent) ms ++ 10 :: (stepback ++ 125 :: tail)) = some (js, tail))

/-! ## The string round trip -/

theorem parseChars_quote (t : List Nat) : parseChars (34 :: t) = some ([], t) := by
  rw [parseChars.eq_def]; simp

theorem parseChars_plain (c : Nat) (t : List Nat) (h34 : c ≠ 34) (h92 : c ≠ 92)
    (h32 : ¬ c < 32) :
    parseChars (c :: t) = (parseChars t).map (fun r => (c :: r.1, r.2)) := by
  rw [parseChars.eq_def]; simp [h34, h92, h32]

theorem parseChars_escape (e u : Nat) (t : List Nat) (hu : e ≠ 117) (h : unescape e = some u) :
    parseChars (92 :: e :: t) = (parseChars t).map (fun r => (u :: r.1, r.2)) := by
  rw [parseChars.eq_def]; simp [hu, h]

theorem parseChars_hex (h1 h2 h3 h4 a b x y : Nat) (t : List Nat)
    (e1 : hexValue h1 = some a) (e2 : hexValue h2 = some b) (e3 : hexValue h3 = some x)
    (e4 : hexValue h4 = some y) :
    parseChars (92 :: 117 :: h1 :: h2 :: h3 :: h4 :: t) =
      (parseChars t).map (fun r => ((((a * 16 + b) * 16 + x) * 16 + y) :: r.1, r.2)) := by
  rw [parseChars.eq_def]; simp [e1, e2, e3, e4]

theorem hexValue_hexDigit (d : Nat) (h : d < 16) : hexValue (hexDigit d) = some d := by
  interval_cases d <;> rfl

theorem parseChars_unicodeEscape (c : Nat) (h : c < 65536) (t : List Nat) :
    parseChars (unicodeEscape c ++ t) = (parseChars t).map (fun r => (c :: r.1, r.2)) := by
  have h1 := hexValue_hexDigit (c / 4096 % 16) (Nat.mod_lt _ (by norm_num))
  have h2 := hexValue_hexDigit (c / 256 % 16) (Nat.mod_lt _ (by norm_num))
  have h3 := hexValue_hexDigit (c / 16 % 16) (Nat.mod_lt _ (by norm_num))
  have h4 := hexValue_hexDigit (c % 16) (Nat.mod_lt _ (by norm_num))
  have e : ((c / 4096 % 16 * 16 + c / 256 % 16) * 16 + c / 16 % 16) * 16 + c % 16 = c := by
    omega
  have := parseChars_hex _ _ _ _ _ _ _ _ t h1 h2 h3 h4
  rw [e] at this
  simpa [unicodeEscape] using this

theorem parseChars_quoteUnit (c : Nat) (t : List Nat) :
    parseChars (quoteUnit c ++ t) = (parseChars t).map (fun r => (c :: r.1, r.2)) := by
  unfold quoteUnit
  split_ifs with h8 h9 h10 h12 h13 h34 h92 hu
  · subst h8; exact parseChars_escape 98 8 t (by decide) rfl
  · subst h9; exact parseChars_escape 116 9 t (by decide) rfl
  · subst h10; exact parseChars_escape 110 10 t (by decide) rfl
  · subst h12; exact parseChars_escape 102 12 t (by decide) rfl
  · subst h13; exact parseChars_escape 114 13 t (by decide) rfl
  · subst h34; exact parseChars_escape 34 34 t (by decide) rfl
  · subst h92; exact parseChars_escape 92 92 t (by decide) rfl
  · apply parseChars_unicodeEscape
    simp [isLeadingSurrogate, isTrailingSurrogate] at hu
    omega
  · simp [isLeadingSurrogate, isTrailingSurrogate] at hu
    exact parseChars_plain c t h34 h92 (by omega)

theorem parseChars_quoteBody (s : JsString) (t : List Nat) :
    parseChars (quoteBody s ++ 34 :: t) = some (s, t) := by
  induction s using quoteBody.induct with
  | case1 => simp [quoteBody, parseChars_quote]
  | case2 c =>
    simp only [quoteBody]
    rw [parseChars_quoteUnit, parseChars_quote]; rfl
  | case3 c d rest hp ih =>
    simp only [quoteBody, hp, if_true]
    simp [isLeadingSurrogate, isTrailingSurrogate] at hp
    rw [List.cons_append, List.cons_append,
      parseChars_plain c _ (by omega) (by omega) (by omega),
      parseChars_plain d _ (by omega) (by omega) (by omega), ih]
    rfl
  | case4 c d rest hp ih =>
    simp only [quoteBody, hp]
    rw [if_neg (by simp), List.append_assoc, parseChars_quoteUnit, ih]; rfl

theorem parseChars_quoteJSONString (s : JsString) (t : List Nat) :
    parseChars (quoteBody s ++ [34] ++ t) = some (s, t) := by
  simpa using parseChars_quoteBody s t

theorem skipWs_cons_of_not (c : Nat) (t : List Nat) (h : isWs c = false) :
    skipWs (c :: t) = c :: t := by
  simp [skipWs, h]

/-! ## Numbers -/

theorem digitChar_toNat (k : Nat) (h : k < 10) : (Nat.digitChar k).toNat = 48 + k := by
  interval_cases k <;> rfl

/-- The digits that `Nat.toDigitsCore` puts in front of its accumulator. -/
theorem toDigitsCore_digits (fuel : Nat) : ∀ (n : Nat) (ds : List Char), n < fuel →
    ∃ d pre, Nat.toDigitsCore 10 fuel n ds = d :: (pre ++ ds) ∧
      isDigit d.toNat = true ∧ (∀ c ∈ pre, isDigit (Char.toNat c) = true) ∧
      (0 < n → d.toNat ≠ 48) ∧ (n = 0 → pre = []) := by
  induction fuel with
  | zero => intro n ds h; omega
  | succ fuel ih =>
    intro n ds h
    have hd : (Nat.digitChar (n % 10)).toNat = 48 + n % 10 :=
      digitChar_toNat _ (Nat.mod_lt _ (by norm_num))
    have hdig : isDigit (Nat.digitChar (n % 10)).toNat = true := by
      rw [hd]; simp [isDigit]; omega
    by_cases h0 : n / 10 = 0
    · refine ⟨Nat.digitChar (n % 10), [], ?_, hdig, by simp, ?_, by simp⟩
      · simp [Nat.toDigitsCore, h0]
      · intro hn; rw [hd]; omega
    · obtain ⟨d, pre, e, h1, h2, h3, _⟩ := ih (n / 10) (Nat.digitChar (n % 10) :: ds) (by omega)
      refine ⟨d, pre ++ [Nat.digitChar (n % 10)], ?_, h1, ?_, ?_, ?_⟩
      · simp [Nat.toDigitsCore, h0, e]
      · intro c hc
        rcases List.mem_append.1 hc with hc | hc
        · exact h2 c hc
        · simp at hc; rw [hc]; exact hdig
      · intro _; exact h3 (by omega)
      · intro hn; omega

/-- The decimal representation: one digit, not a zero unless it stands alone,
followed by digits. -/
theorem decimal_digits (n : Nat) :
    ∃ d ds, decimal n = d :: ds ∧ isDigit d = true ∧
      (∀ c ∈ ds, isDigit c = true) ∧ (d = 48 → ds = []) := by
  obtain ⟨d, pre, e, h1, h2, h3, h4⟩ := toDigitsCore_digits (n + 1) n [] (by omega)
  refine ⟨d.toNat, pre.map Char.toNat, ?_, h1, ?_, ?_⟩
  · simp [decimal, Nat.toDigits, e]
  · intro c hc
    obtain ⟨x, hx, rfl⟩ := List.mem_map.1 hc
    exact h2 x hx
  · intro hd
    rcases Nat.eq_zero_or_pos n with hn | hn
    · simp [h4 hn]
    · exact absurd hd (h3 hn)

/-- A run of digits is read up to the first code unit that is not a digit. -/
theorem span_digits (ds r : List Nat) (hds : ∀ c ∈ ds, isDigit c = true)
    (hr : ∀ c t, r = c :: t → isDigit c = false) :
    (ds ++ r).takeWhile isDigit = ds ∧ (ds ++ r).dropWhile isDigit = r := by
  induction ds with
  | nil =>
    cases r with
    | nil => simp
    | cons c t => simp [List.takeWhile_cons, List.dropWhile_cons, hr c t rfl]
  | cons c ds ih =>
    have hc := hds c (by simp)
    have := ih (fun x hx => hds x (by simp [hx]))
    simp [List.takeWhile_cons, List.dropWhile_cons, hc, this]

theorem lexDigits_digits (ds r : List Nat) (hne : ds ≠ []) (hds : ∀ c ∈ ds, isDigit c = true)
    (hr : ∀ c t, r = c :: t → isDigit c = false) :
    lexDigits (ds ++ r) = some (ds, r) := by
  obtain ⟨h1, h2⟩ := span_digits ds r hds hr
  cases ds with
  | nil => exact absurd rfl hne
  | cons d ds' =>
    simp only [lexDigits, List.span_eq_take_drop, h1, h2]

theorem lexInt_int (int r : List Nat) (hint : IsInt int)
    (hr : ∀ c t, r = c :: t → isDigit c = false) :
    lexInt (int ++ r) = some (int, r) := by
  rcases hint with rfl | ⟨d, ds, rfl, hd, h48, hds⟩
  · simp [lexInt]
  · obtain ⟨h1, h2⟩ := span_digits ds r hds hr
    simp [lexInt, h48, hd, h1, h2]

theorem lexFrac_frac (frac r : List Nat) (hfrac : IsFrac frac)
    (hr : ∀ c t, r = c :: t → isDigit c = false ∧ c ≠ 46) :
    lexFrac (frac ++ r) = some (frac, r) := by
  rcases hfrac with rfl | ⟨ds, rfl, hne, hds⟩
  · cases r with
    | nil => rfl
    | cons c t =>
      have := (hr c t rfl).2
      simp only [List.nil_append]
      unfold lexFrac
      split
      · next h => simp at h; omega
      · rfl
  · have := lexDigits_digits ds r hne hds (fun c t h => (hr c t h).1)
    simp [lexFrac, this]

theorem lexExp_exp (exp r : List Nat) (hexp : IsExp exp)
    (hr : ∀ c t, r = c :: t → isDigit c = false ∧ c ≠ 101 ∧ c ≠ 69) :
    lexExp (exp ++ r) = some (exp, r) := by
  rcases hexp with rfl | ⟨sg, ds, rfl, hsg, hne, hds⟩
  · cases r with
    | nil => rfl
    | cons c t =>
      obtain ⟨_, h1, h2⟩ := hr c t rfl
      simp [lexExp, h1, h2]
  · have := lexDigits_digits ds r hne hds (fun c t h => (hr c t h).1)
    rcases hsg with rfl | rfl <;> simp [lexExp, this]

theorem lexNumber_of_parts (input s1 s2 i f x r1 r2 r3 : List Nat)
    (hs : (match input with
      | 45 :: rest => (([45] : List Nat), rest)
      | _ => ([], input)) = (s1, s2))
    (hi : lexInt s2 = some (i, r1)) (hf : lexFrac r1 = some (f, r2))
    (hx : lexExp r2 = some (x, r3)) :
    lexNumber input = some (s1 ++ i ++ f ++ x, r3) := by
  unfold lexNumber
  simp only [hs, hi, hf, hx]

/-- A sign, an integer part, a fraction and an exponent, followed by the end of a
value, are read as one number. -/
theorem lexNumber_parts (neg : Bool) (int frac exp tail : List Nat)
    (hint : IsInt int) (hfrac : IsFrac frac) (hexp : IsExp exp) (ht : endsValue tail = true) :
    lexNumber ((if neg then [45] else []) ++ (int ++ frac ++ exp) ++ tail) =
      some ((if neg then [45] else []) ++ (int ++ frac ++ exp), tail) := by
  have htail : ∀ c t, tail = c :: t → c = 10 ∨ c = 44 := by
    intro c t h; subst h; simpa [endsValue] using ht
  have hx := lexExp_exp exp tail hexp (by
    intro c t h
    rcases htail c t h with rfl | rfl <;> decide)
  have hexpTail : ∀ c t, exp ++ tail = c :: t → c = 101 ∨ c = 10 ∨ c = 44 := by
    intro c t h
    rcases hexp with rfl | ⟨sg, ds, rfl, _⟩
    · rcases htail c t h with h | h <;> simp [h]
    · simp at h; simp [h.1]
  have hf := lexFrac_frac frac (exp ++ tail) hfrac (by
    intro c t h
    rcases hexpTail c t h with rfl | rfl | rfl <;> decide)
  have hfracTail : ∀ c t, frac ++ (exp ++ tail) = c :: t → c = 46 ∨ c = 101 ∨ c = 10 ∨ c = 44 := by
    intro c t h
    rcases hfrac with rfl | ⟨ds, rfl, _⟩
    · rcases hexpTail c t h with h | h | h <;> simp [h]
    · simp at h; simp [h.1]
  have hi := lexInt_int int (frac ++ (exp ++ tail)) hint (by
    intro c t h
    rcases hfracTail c t h with rfl | rfl | rfl | rfl <;> decide)
  have hhead : ∀ c t, int ++ (frac ++ (exp ++ tail)) = c :: t → c ≠ 45 := by
    intro c t h
    rcases hint with rfl | ⟨d, ds, rfl, hd, _⟩
    · simp at h; omega
    · simp at h
      have : 48 ≤ d ∧ d ≤ 57 := by simpa [isDigit] using hd
      omega
  cases neg with
  | true =>
    have := lexNumber_of_parts (45 :: (int ++ (frac ++ (exp ++ tail)))) [45]
      (int ++ (frac ++ (exp ++ tail))) int frac exp _ _ _ rfl hi hf hx
    simpa [List.append_assoc] using this
  | false =>
    have hs : (match int ++ (frac ++ (exp ++ tail)) with
        | 45 :: rest => (([45] : List Nat), rest)
        | _ => ([], int ++ (frac ++ (exp ++ tail)))) =
        ([], int ++ (frac ++ (exp ++ tail))) := by
      split
      · next rest h => exact absurd rfl (hhead 45 rest h)
      · rfl
    have := lexNumber_of_parts (int ++ (frac ++ (exp ++ tail))) []
      (int ++ (frac ++ (exp ++ tail))) int frac exp _ _ _ hs hi hf hx
    simpa [List.append_assoc] using this

theorem significand_digits (lead : Fin 9) (digits : List (Fin 10)) :
    ∃ d rest, JsNumber.significand lead digits = d :: rest ∧ isDigit d = true ∧ d ≠ 48 ∧
      ∀ c ∈ rest, isDigit c = true := by
  refine ⟨49 + lead.val, digits.map (fun d : Fin 10 => 48 + d.val), rfl, ?_, ?_, ?_⟩
  · have := lead.isLt
    simp [isDigit]; omega
  · omega
  · intro c hc
    obtain ⟨x, _, rfl⟩ := List.mem_map.1 hc
    have := x.isLt
    simp [isDigit]; omega

/-- The exponent part of the scientific notation. -/
theorem isExp_decimal (sg m : Nat) (hsg : sg = 43 ∨ sg = 45) :
    IsExp (101 :: sg :: decimal m) := by
  obtain ⟨d, ds, e, h1, h2, _⟩ := decimal_digits m
  refine Or.inr ⟨sg, decimal m, rfl, hsg, by simp [e], ?_⟩
  intro c hc
  rw [e] at hc
  rcases List.mem_cons.1 hc with rfl | hc
  · exact h1
  · exact h2 c hc

/-- The text of a positive finite Number is an integer part, a fraction and an
exponent of the JSON grammar. -/
theorem magnitude_parts (d : Nat) (rest : List Nat) (n : Int) (hd : isDigit d = true)
    (h48 : d ≠ 48) (hrest : ∀ c ∈ rest, isDigit c = true) :
    ∃ int frac exp, JsNumber.magnitude (d :: rest) n = int ++ frac ++ exp ∧
      IsInt int ∧ IsFrac frac ∧ IsExp exp := by
  unfold JsNumber.magnitude
  by_cases hrange : -5 ≤ n ∧ n ≤ 21
  swap
  · rw [if_neg hrange]
    have hsg : (if n - 1 < 0 then 45 else 43) = 43 ∨ (if n - 1 < 0 then 45 else 43) = 45 := by
      split_ifs <;> simp
    cases rest with
    | nil =>
      exact ⟨[d], [], 101 :: (if n - 1 < 0 then 45 else 43) :: decimal (n - 1).natAbs,
        by simp, Or.inr ⟨d, [], rfl, hd, h48, by simp⟩, Or.inl rfl, isExp_decimal _ _ hsg⟩
    | cons r rs =>
      exact ⟨[d], 46 :: r :: rs,
        101 :: (if n - 1 < 0 then 45 else 43) :: decimal (n - 1).natAbs, by simp,
        Or.inr ⟨d, [], rfl, hd, h48, by simp⟩, Or.inr ⟨_, rfl, by simp, hrest⟩,
        isExp_decimal _ _ hsg⟩
  rw [if_pos hrange]
  split_ifs with hk hpos
  · refine ⟨d :: (rest ++ List.replicate (n.toNat - (d :: rest).length) 48), [], [],
      by simp, Or.inr ⟨d, _, rfl, hd, h48, ?_⟩, Or.inl rfl, Or.inl rfl⟩
    intro c hc
    rcases List.mem_append.1 hc with hc | hc
    · exact hrest c hc
    · rw [List.eq_of_mem_replicate hc]; rfl
  · obtain ⟨m, hm⟩ : ∃ m, n.toNat = m + 1 := ⟨n.toNat - 1, by omega⟩
    have hlen : m < rest.length := by
      simp only [List.length_cons] at hk
      omega
    refine ⟨d :: rest.take m, 46 :: rest.drop m, [], by simp [hm],
      Or.inr ⟨d, _, rfl, hd, h48, fun c hc => hrest c (List.mem_of_mem_take hc)⟩,
      Or.inr ⟨_, rfl, ?_, fun c hc => hrest c (List.mem_of_mem_drop hc)⟩, Or.inl rfl⟩
    intro h
    have := congrArg List.length h
    simp at this
    omega
  · refine ⟨[48], 46 :: (List.replicate (-n).toNat 48 ++ d :: rest), [], by simp,
      Or.inl rfl, Or.inr ⟨_, rfl, by simp, ?_⟩, Or.inl rfl⟩
    intro c hc
    rcases List.mem_append.1 hc with hc | hc
    · rw [List.eq_of_mem_replicate hc]; rfl
    · rcases List.mem_cons.1 hc with rfl | hc
      · exact hd
      · exact hrest c hc

/-- The text of a finite Number, followed by the end of a value, is read as one
JSON number; it starts with a minus sign or a digit. -/
theorem lexNumber_toString (x : JsNumber) (hx : x.isFinite = true) (tail : List Nat)
    (ht : endsValue tail = true) :
    lexNumber (x.toString ++ tail) = some (x.toString, tail) ∧
    ∃ c t, x.toString = c :: t ∧ (c = 45 ∨ isDigit c = true) := by
  cases x with
  | nan => simp [JsNumber.isFinite] at hx
  | infinity b => simp [JsNumber.isFinite] at hx
  | zero =>
    refine ⟨?_, 48, [], by decide, Or.inr rfl⟩
    have := lexNumber_parts false [48] [] [] tail (Or.inl rfl) (Or.inl rfl) (Or.inl rfl) ht
    have h0 : JsNumber.toString JsNumber.zero = [48] := by decide
    rw [h0]
    simpa using this
  | finite negative lead digits n =>
    obtain ⟨d, rest, hs, hd, h48, hrest⟩ := significand_digits lead digits
    obtain ⟨int, frac, exp, hm, hint, hfrac, hexp⟩ := magnitude_parts d rest n hd h48 hrest
    have := lexNumber_parts negative int frac exp tail hint hfrac hexp ht
    simp only [JsNumber.toString, hs, hm]
    refine ⟨this, ?_⟩
    cases negative with
    | true => exact ⟨45, int ++ frac ++ exp, by simp, Or.inl rfl⟩
    | false =>
      rcases hint with rfl | ⟨d', ds, rfl, hd', _⟩
      · exact ⟨48, frac ++ exp, by simp, Or.inr rfl⟩
      · exact ⟨d', ds ++ frac ++ exp, by simp, Or.inr hd'⟩

/-! ## The text of a value and its parse -/

theorem isIndent_gap (indent : JsString) (h : IsIndent indent) :
    IsIndent (indent ++ [32, 32]) := by
  intro c hc
  rcases List.mem_append.1 hc with hc | hc
  · exact h c hc
  · simp at hc; exact hc

theorem startsValue_not_ws (c : Nat) (h : StartsValue c) :
    isWs c = false ∧ c ≠ 93 ∧ c ≠ 125 := by
  rcases h with rfl | rfl | rfl | rfl | rfl | rfl | rfl | h
  · decide
  · decide
  · decide
  · decide
  · decide
  · decide
  · decide
  · have : 48 ≤ c ∧ c ≤ 57 := by simpa [isDigit] using h
    refine ⟨?_, by omega, by omega⟩
    simp [isWs]; omega

theorem skipWs_indent (indent : JsString) (c : Nat) (t : List Nat) (hI : IsIndent indent)
    (hc : isWs c = false) : skipWs (indent ++ c :: t) = c :: t := by
  induction indent with
  | nil => exact skipWs_cons_of_not c t hc
  | cons a rest ih =>
    have ha : a = 32 := hI a (by simp)
    subst ha
    have := ih (fun x hx => hI x (by simp [hx]))
    simp [skipWs, isWs, this]

theorem skipWs_lf_indent (indent : JsString) (c : Nat) (t : List Nat) (hI : IsIndent indent)
    (hc : isWs c = false) : skipWs (10 :: (indent ++ c :: t)) = c :: t := by
  have := skipWs_indent indent c t hI hc
  simp [skipWs, isWs, this]

theorem parseValue_null (n : Nat) (tail : List Nat) :
    parseValue (n + 1) (110 :: 117 :: 108 :: 108 :: tail) = some (Json.null, tail) := by
  simp [parseValue]

theorem parseValue_true (n : Nat) (tail : List Nat) :
    parseValue (n + 1) (116 :: 114 :: 117 :: 101 :: tail) = some (Json.bool true, tail) := by
  simp [parseValue]

theorem parseValue_false (n : Nat) (tail : List Nat) :
    parseValue (n + 1) (102 :: 97 :: 108 :: 115 :: 101 :: tail) =
      some (Json.bool false, tail) := by
  simp [parseValue]

theorem parseValue_string (n : Nat) (rest : List Nat) :
    parseValue (n + 1) (34 :: rest) =
      (parseChars rest).map (fun r => (Json.str r.1, r.2)) := by
  simp [parseValue]

theorem parseValue_number (n c : Nat) (rest : List Nat) (hc : c = 45 ∨ isDigit c = true) :
    parseValue (n + 1) (c :: rest) =
      (lexNumber (c :: rest)).map (fun r => (Json.num r.1, r.2)) := by
  have h : c ≠ 123 ∧ c ≠ 91 ∧ c ≠ 34 ∧ c ≠ 116 ∧ c ≠ 102 ∧ c ≠ 110 := by
    rcases hc with rfl | hc
    · decide
    · have : 48 ≤ c ∧ c ≤ 57 := by simpa [isDigit] using hc
      omega
  obtain ⟨h1, h2, h3, h4, h5, h6⟩ := h
  simp [parseValue, h1, h2, h3, h4, h5, h6]

/-- An object with members: the step of `parseValue` at an opening brace. -/
theorem parseValue_brace (n : Nat) (rest : List Nat) (d : Nat) (rest1 : List Nat)
    (h : skipWs rest = d :: rest1) (hd : d ≠ 125) :
    parseValue (n + 1) (123 :: rest) =
      (parseMembers (parseValue n) n (d :: rest1)).map (fun r => (Json.obj r.1, r.2)) := by
  simp [parseValue, h, hd]

/-- An array with elements: the step of `parseValue` at an opening bracket. -/
theorem parseValue_bracket (n : Nat) (rest : List Nat) (d : Nat) (rest1 : List Nat)
    (h : skipWs rest = d :: rest1) (hd : d ≠ 93) :
    parseValue (n + 1) (91 :: rest) =
      (parseElements (parseValue n) n (d :: rest1)).map (fun r => (Json.arr r.1, r.2)) := by
  simp [parseValue, h, hd]

theorem parseValue_empty_object (n : Nat) (tail : List Nat) :
    parseValue (n + 1) (123 :: 125 :: tail) = some (Json.obj [], tail) := by
  simp [parseValue, skipWs, isWs]

theorem parseValue_empty_array (n : Nat) (tail : List Nat) :
    parseValue (n + 1) (91 :: 93 :: tail) = some (Json.arr [], tail) := by
  simp [parseValue, skipWs, isWs]

/-- One element of an array and what follows it. -/
theorem parseElements_step (pv : List Nat → Option (Json × List Nat)) (k : Nat)
    (input : List Nat) (j : Json) (rest : List Nat) (hv : pv input = some (j, rest)) :
    parseElements pv (k + 1) input =
      match skipWs rest with
      | [] => none
      | c :: rest1 =>
        if c = 44 then (parseElements pv k (skipWs rest1)).map (fun r => (j :: r.1, r.2))
        else if c = 93 then some ([j], rest1)
        else none := by
  simp [parseElements, hv]

/-- One member of an object and what follows it. -/
theorem parseMembers_step (pv : List Nat → Option (Json × List Nat)) (k : Nat)
    (key strP after : List Nat) (j : Json) (rest : List Nat)
    (hhead : skipWs (32 :: (strP ++ after)) = strP ++ after)
    (hv : pv (strP ++ after) = some (j, rest)) :
    parseMembers pv (k + 1) (quoteJSONString key ++ 58 :: 32 :: strP ++ after) =
      match skipWs rest with
      | [] => none
      | e :: rest4 =>
        if e = 44 then
          (parseMembers pv k (skipWs rest4)).map (fun r => ((key, j) :: r.1, r.2))
        else if e = 125 then some ([(key, j)], rest4)
        else none := by
  have hkey : parseChars (quoteBody key ++ 34 :: 58 :: 32 :: (strP ++ after)) =
      some (key, 58 :: 32 :: (strP ++ after)) := parseChars_quoteBody key _
  have h1 : skipWs (58 :: 32 :: (strP ++ after)) = 58 :: 32 :: (strP ++ after) :=
    skipWs_cons_of_not _ _ (by decide)
  have e : quoteJSONString key ++ 58 :: 32 :: strP ++ after =
      34 :: (quoteBody key ++ 34 :: 58 :: 32 :: (strP ++ after)) := by
    simp [quoteJSONString]
  rw [e]
  simp only [parseMembers, hkey, h1, hhead, hv]
  simp

theorem parsesTo_null : ParsesTo (lit "null") Json.null := by
  intro m tail _
  have h : lit "null" = [110, 117, 108, 108] := by decide
  rw [h]
  have : [110, 117, 108, 108].length + m = (3 + m) + 1 := by simp; omega
  rw [this]
  exact parseValue_null _ _

theorem parsesTo_true : ParsesTo (lit "true") (Json.bool true) := by
  intro m tail _
  have h : lit "true" = [116, 114, 117, 101] := by decide
  rw [h]
  have : [116, 114, 117, 101].length + m = (3 + m) + 1 := by simp; omega
  rw [this]
  exact parseValue_true _ _

theorem parsesTo_false : ParsesTo (lit "false") (Json.bool false) := by
  intro m tail _
  have h : lit "false" = [102, 97, 108, 115, 101] := by decide
  rw [h]
  have : [102, 97, 108, 115, 101].length + m = (4 + m) + 1 := by simp; omega
  rw [this]
  exact parseValue_false _ _

theorem parsesTo_string (s : JsString) : ParsesTo (quoteJSONString s) (Json.str s) := by
  intro m tail _
  have e : quoteJSONString s ++ tail = 34 :: (quoteBody s ++ 34 :: tail) := by
    simp [quoteJSONString]
  have : (quoteJSONString s).length + m = ((quoteBody s).length + 1 + m) + 1 := by
    simp [quoteJSONString]; omega
  rw [e, this, parseValue_string, parseChars_quoteBody]
  rfl

theorem parsesTo_number (x : JsNumber) (hx : x.isFinite = true) :
    ParsesTo x.toString (Json.num x.toString) := by
  intro m tail ht
  obtain ⟨hl, c, t, e, hc⟩ := lexNumber_toString x hx tail ht
  have : x.toString.length + m = (t.length + m) + 1 := by rw [e]; simp; omega
  rw [this]
  have e2 : x.toString ++ tail = c :: (t ++ tail) := by rw [e]; rfl
  rw [e2, parseValue_number _ _ _ hc, ← e2, hl]
  rfl

/-- A value that is left out is stored as nothing. -/
theorem storedAs_of_left_out (indent : JsString) (v : JsData)
    (h : serializeJSONProperty indent v = Except.ok none) : storedAs v = none := by
  cases v with
  | undefined => rfl
  | null => simp [serializeJSONProperty] at h
  | bool b => cases b <;> simp [serializeJSONProperty] at h
  | num x => simp [serializeJSONProperty] at h
  | str s => simp [serializeJSONProperty] at h
  | array items =>
    simp only [serializeJSONProperty] at h
    split at h <;> simp at h
  | object props =>
    simp only [serializeJSONProperty] at h
    split at h <;> simp at h
  | unserializable e => simp [serializeJSONProperty] at h

theorem joinWith_singleton (sep p : JsString) : joinWith sep [p] = p := rfl

theorem joinWith_cons_cons (sep p q : JsString) (qs : List JsString) :
    joinWith sep (p :: q :: qs) = p ++ sep ++ joinWith sep (q :: qs) := rfl

theorem elementsParse_nil (indent : JsString) : ElementsParse indent [] [] :=
  ⟨fun _ => rfl, fun h => absurd rfl h⟩

theorem elementsParse_cons (indent p : JsString) (ps : List JsString) (j : Json)
    (js : List Json) (hI : IsIndent indent) (hp : ∃ c t, p = c :: t ∧ StartsValue c)
    (hj : ParsesTo p j) (hps : ElementsParse indent ps js) :
    ElementsParse indent (p :: ps) (j :: js) := by
  obtain ⟨c, t, rfl, hc⟩ := hp
  refine ⟨fun h => by simp at h, fun _ => ?_⟩
  cases ps with
  | nil =>
    have hjs : js = [] := hps.1 rfl
    subst hjs
    rw [joinWith_singleton]
    refine ⟨⟨c, t, rfl, hc⟩, by simp, ?_⟩
    intro N k stepback tail hS hN hk
    obtain ⟨k', rfl⟩ : ∃ k', k = k' + 1 := ⟨k - 1, by simp at hk; omega⟩
    have hv : parseValue N ((c :: t) ++ 10 :: (stepback ++ 93 :: tail)) =
        some (j, 10 :: (stepback ++ 93 :: tail)) := by
      have := hj (N - (c :: t).length) (10 :: (stepback ++ 93 :: tail)) rfl
      rwa [show (c :: t).length + (N - (c :: t).length) = N by omega] at this
    rw [parseElements_step _ _ _ _ _ hv, skipWs_lf_indent stepback 93 tail hS (by decide)]
    simp
  | cons q qs =>
    obtain ⟨⟨c', t', hc', hs'⟩, hlen, hparse⟩ := hps.2 (by simp)
    rw [joinWith_cons_cons]
    refine ⟨⟨c, t ++ 44 :: 10 :: indent ++ joinWith (44 :: 10 :: indent) (q :: qs), by simp,
      hc⟩, ?_, ?_⟩
    · simp only [List.length_append, List.length_cons] at hlen ⊢
      omega
    · intro N k stepback tail hS hN hk
      obtain ⟨k', rfl⟩ : ∃ k', k = k' + 1 := ⟨k - 1, by simp at hk; omega⟩
      have e : (c :: t) ++ 44 :: 10 :: indent ++ joinWith (44 :: 10 :: indent) (q :: qs) ++
          10 :: (stepback ++ 93 :: tail) =
          (c :: t) ++ 44 :: (10 :: (indent ++ c' :: (t' ++ 10 :: (stepback ++ 93 :: tail)))) := by
        rw [hc']; simp [List.append_assoc]
      have hv : parseValue N ((c :: t) ++
          44 :: (10 :: (indent ++ c' :: (t' ++ 10 :: (stepback ++ 93 :: tail))))) =
          some (j, 44 :: (10 :: (indent ++ c' :: (t' ++ 10 :: (stepback ++ 93 :: tail))))) := by
        have := hj (N - (c :: t).length)
          (44 :: (10 :: (indent ++ c' :: (t' ++ 10 :: (stepback ++ 93 :: tail))))) rfl
        have hle : (c :: t).length ≤ N := by
          simp only [List.length_append, List.length_cons] at hN ⊢
          omega
        rwa [show (c :: t).length + (N - (c :: t).length) = N by omega] at this
      have hrest := hparse N k' stepback tail hS
        (by simp only [List.length_append, List.length_cons] at hN ⊢; omega)
        (by simp only [List.length_cons] at hk ⊢; omega)
      rw [hc'] at hrest
      rw [e, parseElements_step _ _ _ _ _ hv, skipWs_cons_of_not 44 _ (by decide)]
      simp only [if_true]
      rw [skipWs_lf_indent indent c' _ hI (startsValue_not_ws c' hs').1]
      simp only [List.cons_append] at hrest
      rw [hrest]
      rfl

theorem membersParse_nil (indent : JsString) : MembersParse indent [] [] :=
  ⟨fun _ => rfl, fun h => absurd rfl h⟩

theorem membersParse_cons (indent key strP : JsString) (ps : List JsString) (j : Json)
    (js : List (JsString × Json)) (hI : IsIndent indent)
    (hp : ∃ c t, strP = c :: t ∧ StartsValue c) (hj : ParsesTo strP j)
    (hps : MembersParse indent ps js) :
    MembersParse indent ((quoteJSONString key ++ 58 :: 32 :: strP) :: ps) ((key, j) :: js) := by
  obtain ⟨c, t, rfl, hc⟩ := hp
  have hhead : ∀ after : List Nat,
      skipWs (32 :: ((c :: t) ++ after)) = (c :: t) ++ after := by
    intro after
    have := skipWs_cons_of_not c (t ++ after) (startsValue_not_ws c hc).1
    rw [skipWs]
    simpa [isWs] using this
  have hmlen : (c :: t).length ≤ (quoteJSONString key ++ 58 :: 32 :: (c :: t)).length := by
    simp only [List.length_append, List.length_cons]; omega
  refine ⟨fun h => by simp at h, fun _ => ?_⟩
  cases ps with
  | nil =>
    have hjs : js = [] := hps.1 rfl
    subst hjs
    rw [joinWith_singleton]
    refine ⟨⟨quoteBody key ++ 34 :: 58 :: 32 :: (c :: t), by simp [quoteJSONString]⟩,
      by simp only [List.length_append, List.length_cons, List.length_nil]; omega, ?_⟩
    intro N k stepback tail hS hN hk
    obtain ⟨k', rfl⟩ : ∃ k', k = k' + 1 := ⟨k - 1, by simp at hk; omega⟩
    have hv : parseValue N ((c :: t) ++ 10 :: (stepback ++ 125 :: tail)) =
        some (j, 10 :: (stepback ++ 125 :: tail)) := by
      have := hj (N - (c :: t).length) (10 :: (stepback ++ 125 :: tail)) rfl
      rwa [show (c :: t).length + (N - (c :: t).length) = N by omega] at this
    rw [parseMembers_step _ _ _ _ _ _ _ (hhead _) hv,
      skipWs_lf_indent stepback 125 tail hS (by decide)]
    simp
  | cons q qs =>
    obtain ⟨⟨t', hc'⟩, hlen, hparse⟩ := hps.2 (by simp)
    rw [joinWith_cons_cons]
    refine ⟨⟨quoteBody key ++ 34 :: 58 :: 32 :: (c :: t) ++ 44 :: 10 :: indent ++
      joinWith (44 :: 10 :: indent) (q :: qs), by simp [quoteJSONString]⟩, ?_, ?_⟩
    · simp only [List.length_append, List.length_cons] at hlen ⊢
      omega
    · intro N k stepback tail hS hN hk
      obtain ⟨k', rfl⟩ : ∃ k', k = k' + 1 := ⟨k - 1, by simp at hk; omega⟩
      have e : quoteJSONString key ++ 58 :: 32 :: (c :: t) ++ 44 :: 10 :: indent ++
          joinWith (44 :: 10 :: indent) (q :: qs) ++ 10 :: (stepback ++ 125 :: tail) =
          quoteJSONString key ++ 58 :: 32 :: (c :: t) ++
            44 :: (10 :: (indent ++ 34 :: (t' ++ 10 :: (stepback ++ 125 :: tail)))) := by
        rw [hc']; simp [List.append_assoc]
      have hv : parseValue N ((c :: t) ++
          44 :: (10 :: (indent ++ 34 :: (t' ++ 10 :: (stepback ++ 125 :: tail))))) =
          some (j, 44 :: (10 :: (indent ++ 34 :: (t' ++ 10 :: (stepback ++ 125 :: tail))))) := by
        have := hj (N - (c :: t).length)
          (44 :: (10 :: (indent ++ 34 :: (t' ++ 10 :: (stepback ++ 125 :: tail))))) rfl
        have hle : (c :: t).length ≤ N := by
          simp only [List.length_append, List.length_cons] at hN hmlen ⊢
          omega
        rwa [show (c :: t).length + (N - (c :: t).length) = N by omega] at this
      have hrest := hparse N k' stepback tail hS
        (by simp only [List.length_append, List.length_cons] at hN ⊢; omega)
        (by simp only [List.length_cons] at hk ⊢; omega)
      rw [hc'] at hrest
      rw [e, parseMembers_step _ _ _ _ _ _ _ (hhead _) hv, skipWs_cons_of_not 44 _ (by decide)]
      simp only [if_true]
      rw [skipWs_lf_indent indent 34 _ hI (by decide)]
      simp only [List.cons_append] at hrest
      rw [hrest]
      rfl

/-- The text of an array, given how its elements are read. -/
theorem array_parses (indent : JsString) (ms : List JsString) (js : List Json)
    (hI : IsIndent indent) (h : ElementsParse (indent ++ [32, 32]) ms js) :
    (∃ c t, wrapMembers 91 93 indent ms = c :: t ∧ StartsValue c) ∧
      ParsesTo (wrapMembers 91 93 indent ms) (Json.arr js) := by
  cases ms with
  | nil =>
    have hjs : js = [] := h.1 rfl
    subst hjs
    refine ⟨⟨91, [93], rfl, by simp [StartsValue]⟩, ?_⟩
    intro m tail _
    have : (wrapMembers 91 93 indent []).length + m = (1 + m) + 1 := by
      simp [wrapMembers]; omega
    rw [this]
    exact parseValue_empty_array _ _
  | cons p ps =>
    obtain ⟨⟨c, t, hc, hs⟩, hlen, hparse⟩ := h.2 (by simp)
    refine ⟨⟨91, _, rfl, by simp [StartsValue]⟩, ?_⟩
    intro m tail _
    have e : wrapMembers 91 93 indent (p :: ps) ++ tail =
        91 :: (10 :: ((indent ++ [32, 32]) ++ c :: (t ++ 10 :: (indent ++ 93 :: tail)))) := by
      simp only [wrapMembers]
      rw [hc]
      simp [List.append_assoc]
    obtain ⟨N, hN, h1, h2⟩ : ∃ N, (wrapMembers 91 93 indent (p :: ps)).length + m = N + 1 ∧
        (joinWith (44 :: 10 :: (indent ++ [32, 32])) (p :: ps)).length ≤ N ∧
        (p :: ps).length ≤ N := by
      refine ⟨(wrapMembers 91 93 indent (p :: ps)).length + m - 1, ?_, ?_, ?_⟩ <;>
        simp only [wrapMembers, List.length_append, List.length_cons] at hlen ⊢ <;> omega
    have hels := hparse N N indent tail hI h1 h2
    rw [hc] at hels
    simp only [List.cons_append] at hels
    rw [e, hN, parseValue_bracket N _ c _
      (skipWs_lf_indent (indent ++ [32, 32]) c _ (isIndent_gap indent hI)
        (startsValue_not_ws c hs).1) (startsValue_not_ws c hs).2.1, hels]
    rfl

/-- The text of an object, given how its members are read. -/
theorem object_parses (indent : JsString) (ms : List JsString) (js : List (JsString × Json))
    (hI : IsIndent indent) (h : MembersParse (indent ++ [32, 32]) ms js) :
    (∃ c t, wrapMembers 123 125 indent ms = c :: t ∧ StartsValue c) ∧
      ParsesTo (wrapMembers 123 125 indent ms) (Json.obj js) := by
  cases ms with
  | nil =>
    have hjs : js = [] := h.1 rfl
    subst hjs
    refine ⟨⟨123, [125], rfl, by simp [StartsValue]⟩, ?_⟩
    intro m tail _
    have : (wrapMembers 123 125 indent []).length + m = (1 + m) + 1 := by
      simp [wrapMembers]; omega
    rw [this]
    exact parseValue_empty_object _ _
  | cons p ps =>
    obtain ⟨⟨t, hc⟩, hlen, hparse⟩ := h.2 (by simp)
    refine ⟨⟨123, _, rfl, by simp [StartsValue]⟩, ?_⟩
    intro m tail _
    have e : wrapMembers 123 125 indent (p :: ps) ++ tail =
        123 :: (10 :: ((indent ++ [32, 32]) ++ 34 :: (t ++ 10 :: (indent ++ 125 :: tail)))) := by
      simp only [wrapMembers]
      rw [hc]
      simp [List.append_assoc]
    obtain ⟨N, hN, h1, h2⟩ : ∃ N, (wrapMembers 123 125 indent (p :: ps)).length + m = N + 1 ∧
        (joinWith (44 :: 10 :: (indent ++ [32, 32])) (p :: ps)).length ≤ N ∧
        (p :: ps).length ≤ N := by
      refine ⟨(wrapMembers 123 125 indent (p :: ps)).length + m - 1, ?_, ?_, ?_⟩ <;>
        simp only [wrapMembers, List.length_append, List.length_cons] at hlen ⊢ <;> omega
    have hmem := hparse N N indent tail hI h1 h2
    rw [hc] at hmem
    simp only [List.cons_append] at hmem
    rw [e, hN, parseValue_brace N _ 34 _
      (skipWs_lf_indent (indent ++ [32, 32]) 34 _ (isIndent_gap indent hI) (by decide))
      (by decide), hmem]
    rfl

mutual
/-- The text of a value starts as a value does and is read back as the JSON value
the value is stored as. -/
theorem serializeJSONProperty_parses : ∀ (v : JsData) (indent text : JsString),
    IsIndent indent → serializeJSONProperty indent v = Except.ok (some text) →
    (∃ c t, text = c :: t ∧ StartsValue c) ∧ ∃ j, storedAs v = some j ∧ ParsesTo text j
  | JsData.undefined, indent, text, _, h => by simp [serializeJSONProperty] at h
  | JsData.null, indent, text, _, h => by
    simp only [serializeJSONProperty, Except.ok.injEq, Option.some.injEq] at h
    subst h
    exact ⟨⟨110, [117, 108, 108], by decide, Or.inl rfl⟩, Json.null, rfl, parsesTo_null⟩
  | JsData.bool true, indent, text, _, h => by
    simp only [serializeJSONProperty, Except.ok.injEq, Option.some.injEq] at h
    subst h
    exact ⟨⟨116, [114, 117, 101], by decide, Or.inr (Or.inl rfl)⟩, Json.bool true, rfl,
      parsesTo_true⟩
  | JsData.bool false, indent, text, _, h => by
    simp only [serializeJSONProperty, Except.ok.injEq, Option.some.injEq] at h
    subst h
    exact ⟨⟨102, [97, 108, 115, 101], by decide, Or.inr (Or.inr (Or.inl rfl))⟩,
      Json.bool false, rfl, parsesTo_false⟩
  | JsData.num x, indent, text, _, h => by
    simp only [serializeJSONProperty, Except.ok.injEq, Option.some.injEq] at h
    subst h
    by_cases hx : x.isFinite = true
    · obtain ⟨_, c, t, e, hc⟩ := lexNumber_toString x hx [] rfl
      refine ⟨⟨c, t, by simp [hx, e], ?_⟩, Json.num x.toString, by simp [storedAs, hx], ?_⟩
      · rcases hc with rfl | hc
        · simp [StartsValue]
        · simp [StartsValue, hc]
      · simpa [hx] using parsesTo_number x hx
    · refine ⟨⟨110, [117, 108, 108], by simp [hx]; decide, Or.inl rfl⟩, Json.null,
        by simp [storedAs, hx], ?_⟩
      simpa [hx] using parsesTo_null
  | JsData.str s, indent, text, _, h => by
    simp only [serializeJSONProperty, Except.ok.injEq, Option.some.injEq] at h
    subst h
    exact ⟨⟨34, quoteBody s ++ [34], rfl, by simp [StartsValue]⟩, Json.str s, rfl,
      parsesTo_string s⟩
  | JsData.array items, indent, text, hI, h => by
    simp only [serializeJSONProperty] at h
    split at h
    · simp at h
    · next ms hms =>
      simp only [Except.ok.injEq, Option.some.injEq] at h
      subst h
      have hE := serializeElements_parses items (indent ++ [32, 32]) ms
        (isIndent_gap indent hI) hms
      obtain ⟨h1, h2⟩ := array_parses indent ms (storedElements items) hI hE
      exact ⟨h1, Json.arr (storedElements items), by simp [storedAs], h2⟩
  | JsData.object props, indent, text, hI, h => by
    simp only [serializeJSONProperty] at h
    split at h
    · simp at h
    · next ms hms =>
      simp only [Except.ok.injEq, Option.some.injEq] at h
      subst h
      have hM := serializeMembers_parses props (indent ++ [32, 32]) ms
        (isIndent_gap indent hI) hms
      obtain ⟨h1, h2⟩ := object_parses indent ms (storedMembers props) hI hM
      exact ⟨h1, Json.obj (storedMembers props), by simp [storedAs], h2⟩
  | JsData.unserializable e, indent, text, _, h => by simp [serializeJSONProperty] at h
/-- The texts of the elements of an array are read back as the elements. -/
theorem serializeElements_parses : ∀ (items : List JsData) (indent : JsString)
    (ms : List JsString), IsIndent indent → serializeElements indent items = Except.ok ms →
    ElementsParse indent ms (storedElements items)
  | [], indent, ms, _, h => by
    simp only [serializeElements, Except.ok.injEq] at h
    subst h
    exact elementsParse_nil indent
  | v :: rest, indent, ms, hI, h => by
    simp only [serializeElements] at h
    split at h
    · simp at h
    · next strP hv =>
      split at h
      · simp at h
      · next ps hps =>
        simp only [Except.ok.injEq] at h
        subst h
        have ih := serializeElements_parses rest indent ps hI hps
        cases strP with
        | none =>
          have hs := storedAs_of_left_out indent v hv
          have e : storedElements (v :: rest) = Json.null :: storedElements rest := by
            simp [storedElements, hs]
          rw [e]
          exact elementsParse_cons indent _ ps Json.null _ hI
            ⟨110, [117, 108, 108], by decide, Or.inl rfl⟩ parsesTo_null ih
        | some text =>
          obtain ⟨hhead, j, hj, hp⟩ := serializeJSONProperty_parses v indent text hI hv
          have e : storedElements (v :: rest) = j :: storedElements rest := by
            simp [storedElements, hj]
          rw [e]
          exact elementsParse_cons indent text ps j _ hI hhead hp ih
/-- The texts of the members of an object are read back as the members. -/
theorem serializeMembers_parses : ∀ (props : List (JsString × JsData)) (indent : JsString)
    (ms : List JsString), IsIndent indent → serializeMembers indent props = Except.ok ms →
    MembersParse indent ms (storedMembers props)
  | [], indent, ms, _, h => by
    simp only [serializeMembers, Except.ok.injEq] at h
    subst h
    exact membersParse_nil indent
  | (k, v) :: rest, indent, ms, hI, h => by
    simp only [serializeMembers] at h
    split at h
    · simp at h
    · next hv =>
      have hs := storedAs_of_left_out indent v hv
      have e : storedMembers ((k, v) :: rest) = storedMembers rest := by
        simp [storedMembers, hs]
      rw [e]
      exact serializeMembers_parses rest indent ms hI h
    · next strP hv =>
      split at h
      · simp at h
      · next ps hps =>
        simp only [Except.ok.injEq] at h
        subst h
        have ih := serializeMembers_parses rest indent ps hI hps
        obtain ⟨hhead, j, hj, hp⟩ := serializeJSONProperty_parses v indent strP hI hv
        have e : storedMembers ((k, v) :: rest) = (k, j) :: storedMembers rest := by
          simp [storedMembers, hj]
        rw [e]
        exact membersParse_cons indent k strP ps j _ hI hhead hp ih
end

/-- A text that is read as a value with whatever follows it is a JSON text. -/
theorem parse_of_parsesTo (text : JsString) (j : Json)
    (hhead : ∃ c t, text = c :: t ∧ StartsValue c) (h : ParsesTo text j) :
    parse text = some j := by
  obtain ⟨c, t, rfl, hc⟩ := hhead
  have := h 1 [] rfl
  simp only [List.append_nil] at this
  unfold parse
  rw [skipWs_cons_of_not c t (startsValue_not_ws c hc).1, this]
  simp [skipWs]

/-- The call on an object returns a text, unless it throws. -/
theorem stringify2_object (props : List (JsString × JsData)) :
    stringify2 (JsData.object props) ≠ Except.ok none := by
  simp only [stringify2, serializeJSONProperty]
  split <;> simp

/-- Reading back the text written for the record `{ address: v }`. -/
theorem parse_stringify2 (v : JsData) (text : JsString)
    (h : stringify2 (JsData.object [(lit "address", v)]) = Except.ok (some text)) :
    parse text = some (Json.obj (storedMembers [(lit "address", v)])) := by
  obtain ⟨hhead, j, hj, hp⟩ := serializeJSONProperty_parses _ [] text
    (fun c hc => by simp at hc) h
  simp only [storedAs, Option.some.injEq] at hj
  subst hj
  exact parse_of_parsesTo text _ hhead hp

/-- Only a string is stored as a string. -/
theorem storedAs_eq_str (v : JsData) (a : JsString) (h : storedAs v = some (Json.str a)) :
    v = JsData.str a := by
  cases v with
  | undefined => simp [storedAs] at h
  | null => simp [storedAs] at h
  | bool b => simp [storedAs] at h
  | num x =>
    simp only [storedAs, Option.some.injEq] at h
    split at h <;> simp at h
  | str s => simp only [storedAs, Option.some.injEq, Json.str.injEq] at h; rw [h]
  | array items => simp [storedAs] at h
  | object props => simp [storedAs] at h
  | unserializable e => simp [storedAs] at h

/-- The member `address` of the parsed record. -/
theorem member_storedMembers (v : JsData) :
    (Json.obj (storedMembers [(lit "address", v)])).member (lit "address") = storedAs v := by
  cases h : storedAs v with
  | none => simp [storedMembers, h, Json.member]
  | some j => simp [storedMembers, h, Json.member, List.lookup]

/-- The text of the record for a string address. -/
theorem stringify2_address (a : JsString) :
    stringify2 (JsData.object [(lit "address", JsData.str a)]) =
      Except.ok (some (lit "\x7b\n  \"address\": " ++ quoteJSONString a ++ lit "\n\x7d")) := by
  have hk : quoteJSONString (lit "address") = [34, 97, 100, 100, 114, 101, 115, 115, 34] := by
    decide
  have h1 : lit "\x7b\n  \"address\": " =
      [123, 10, 32, 32, 34, 97, 100, 100, 114, 101, 115, 115, 34, 58, 32] := by decide
  have h3 : lit "\n\x7d" = [10, 125] := by decide
  simp [stringify2, serializeJSONProperty, serializeMembers, wrapMembers, joinWith, hk,
    h1, h3]

/-- The run of `deployContract` once the creation call has resolved to a handle, the
record has been serialized and the write has succeeded. -/
theorem deployContract_written (client : Client) (compiledContract : Artifact)
    (prior : Option JsString) (address : JsData) (text : JsString)
    (h : client (deployOptions compiledContract) =
      Except.ok (ContractInstance.handle address))
    (hs : stringify2 (JsData.object [(lit "address", address)]) = Except.ok (some text)) :
    (deployContract (Binding.initialized client) compiledContract
        ⟨prior, WriteResult.written⟩).file = some text := by
  simp [deployContract, Binding.read, h, ContractInstance.address, hs]

/-! ## The deployer: properties -/

/-- C1: when the creation call rejects (or throws) with any value, whatever the
output file held and whatever the write would do, `deployContract` leaves the file
as it was, binds no contract instance, and the process ends with exit status 1. -/
theorem deployContract_rejected (client : Client) (compiledContract : Artifact) (w : World)
    (e : Thrown) (h : client (deployOptions compiledContract) = Except.error e) :
    (deployContract (Binding.initialized client) compiledContract w).file = w.file ∧
    (deployContract (Binding.initialized client) compiledContract w).handle = none ∧
    exitStatus (deployContract (Binding.initialized client) compiledContract w).completion
      = 1 := by
  cases e <;> simp [deployContract, Binding.read, h, catchClause, Thrown.message, exitStatus]

/-- C1 at a rejection with the error `REVERT` and a file holding `old`. -/
theorem deployContract_rejected_witness :
    (deployContract (Binding.initialized (fun _ => Except.error (Thrown.error "REVERT")))
        ⟨Json.arr [], Json.str []⟩ ⟨some (lit "old"), WriteResult.written⟩).file
      = some (lit "old") ∧
    (deployContract (Binding.initialized (fun _ => Except.error (Thrown.error "REVERT")))
        ⟨Json.arr [], Json.str []⟩ ⟨some (lit "old"), WriteResult.written⟩).handle = none ∧
    exitStatus (deployContract
        (Binding.initialized (fun _ => Except.error (Thrown.error "REVERT")))
        ⟨Json.arr [], Json.str []⟩ ⟨some (lit "old"), WriteResult.written⟩).completion = 1 :=
  deployContract_rejected (fun _ => Except.error (Thrown.error "REVERT"))
    ⟨Json.arr [], Json.str []⟩ ⟨some (lit "old"), WriteResult.written⟩
    (Thrown.error "REVERT") rfl

/-- C2 (defect): whatever the environment, the artifact and the file system, the
script ends in its start-up with the `ReferenceError` of line 12: `deployContract`
is not called, the exit status is 1 and the result file is left as it was. -/
theorem runScript_fails_at_startup (env : Env) (compiledContract : Artifact) (w : World) :
    (runScript env compiledContract w).completion =
        Completion.threw (Thrown.error "Cannot access \x27tronWeb\x27 before initialization") ∧
    exitStatus (runScript env compiledContract w).completion = 1 ∧
    (runScript env compiledContract w).file = w.file ∧
    (runScript env compiledContract w).handle = none ∧
    (runScript env compiledContract w).stdout = [] := by
  simp [runScript, moduleStartup, initTronWeb, Binding.read, exitStatus]

/-- C3 (counterexample): for a handle whose address is the empty string, and for a
handle without address, the text written is not a JSON object with a non-empty
string `address`. -/
theorem empty_or_missing_address_written :
    (∃ text, (deployContract
        (Binding.initialized (fun _ => Except.ok (ContractInstance.handle (JsData.str []))))
        ⟨Json.arr [], Json.str []⟩ ⟨none, WriteResult.written⟩).file = some text ∧
      ¬ hasNonEmptyAddress text) ∧
    (∃ text, (deployContract
        (Binding.initialized (fun _ => Except.ok (ContractInstance.handle JsData.undefined)))
        ⟨Json.arr [], Json.str []⟩ ⟨none, WriteResult.written⟩).file = some text ∧
      ¬ hasNonEmptyAddress text) := by
  constructor
  · refine ⟨lit "\x7b\n  \"address\": \"\"\n\x7d", rfl, ?_⟩
    rintro ⟨ms, a, hp, hm, ha⟩
    rw [parse_stringify2 (JsData.str []) (lit "\x7b\n  \"address\": \"\"\n\x7d") rfl] at hp
    simp only [Option.some.injEq, Json.obj.injEq] at hp
    subst hp
    rw [member_storedMembers] at hm
    simp [storedAs] at hm
    exact ha hm
  · refine ⟨lit "\x7b\x7d", rfl, ?_⟩
    rintro ⟨ms, a, hp, hm, ha⟩
    rw [parse_stringify2 JsData.undefined (lit "\x7b\x7d") rfl] at hp
    simp only [Option.some.injEq, Json.obj.injEq] at hp
    subst hp
    rw [member_storedMembers] at hm
    simp [storedAs] at hm

/-- C3 (amended): when the creation call resolves to a handle, whatever its address
holds, and the write succeeds, then either `JSON.stringify` throws on the address
and the file is left as it was, or the text written parses as a JSON object; when
the address is a string, the object's `address` is that string; the object has a
non-empty string `address` exactly when the handle's address is a non-empty string. -/
theorem deployContract_writes_json_object (client : Client) (compiledContract : Artifact)
    (prior : Option JsString) (address : JsData)
    (h : client (deployOptions compiledContract) =
      Except.ok (ContractInstance.handle address)) :
    (∃ e, stringify2 (JsData.object [(lit "address", address)]) = Except.error e ∧
      (deployContract (Binding.initialized client) compiledContract
        ⟨prior, WriteResult.written⟩).file = prior) ∨
    (∃ text ms, (deployContract (Binding.initialized client) compiledContract
        ⟨prior, WriteResult.written⟩).file = some text ∧
      parse text = some (Json.obj ms) ∧
      (∀ a, address = JsData.str a →
        (Json.obj ms).member (lit "address") = some (Json.str a)) ∧
      (hasNonEmptyAddress text ↔ ∃ a, address = JsData.str a ∧ a ≠ [])) := by
  cases hs : stringify2 (JsData.object [(lit "address", address)]) with
  | error e =>
    refine Or.inl ⟨e, rfl, ?_⟩
    cases e <;>
      simp [deployContract, Binding.read, h, ContractInstance.address, hs, catchClause,
        Thrown.message]
  | ok r =>
    cases r with
    | none => exact absurd hs (stringify2_object _)
    | some text =>
      have hp := parse_stringify2 address text hs
      refine Or.inr ⟨text, _, deployContract_written client compiledContract prior address
        text h hs, hp, ?_, ?_⟩
      · rintro a rfl
        rw [member_storedMembers]
        rfl
      · constructor
        · rintro ⟨ms, a, hp', hm, ha⟩
          rw [hp] at hp'
          simp only [Option.some.injEq, Json.obj.injEq] at hp'
          subst hp'
          rw [member_storedMembers] at hm
          exact ⟨a, storedAs_eq_str address a hm, ha⟩
        · rintro ⟨a, rfl, ha⟩
          exact ⟨_, a, hp, by rw [member_storedMembers]; rfl, ha⟩

/-- C3 (amended) at a handle whose address is an array holding a number and an
object, and no prior file. -/
theorem deployContract_writes_json_object_witness :
    (∃ e, stringify2 (JsData.object [(lit "address",
          JsData.array [JsData.num (JsNumber.finite false 0 [] 22),
            JsData.object [(lit "hex", JsData.str (lit "41a3"))]])]) = Except.error e ∧
      (deployContract (Binding.initialized (fun _ => Except.ok (ContractInstance.handle
          (JsData.array [JsData.num (JsNumber.finite false 0 [] 22),
            JsData.object [(lit "hex", JsData.str (lit "41a3"))]]))))
        ⟨Json.arr [], Json.str []⟩ ⟨none, WriteResult.written⟩).file = none) ∨
    (∃ text ms, (deployContract (Binding.initialized (fun _ => Except.ok
          (ContractInstance.handle
            (JsData.array [JsData.num (JsNumber.finite false 0 [] 22),
              JsData.object [(lit "hex", JsData.str (lit "41a3"))]]))))
        ⟨Json.arr [], Json.str []⟩ ⟨none, WriteResult.written⟩).file = some text ∧
      parse text = some (Json.obj ms) ∧
      (∀ a, JsData.array [JsData.num (JsNumber.finite false 0 [] 22),
          JsData.object [(lit "hex", JsData.str (lit "41a3"))]] = JsData.str a →
        (Json.obj ms).member (lit "address") = some (Json.str a)) ∧
      (hasNonEmptyAddress text ↔
        ∃ a, JsData.array [JsData.num (JsNumber.finite false 0 [] 22),
          JsData.object [(lit "hex", JsData.str (lit "41a3"))]] = JsData.str a ∧ a ≠ [])) :=
  deployContract_writes_json_object
    (fun _ => Except.ok (ContractInstance.handle
      (JsData.array [JsData.num (JsNumber.finite false 0 [] 22),
        JsData.object [(lit "hex", JsData.str (lit "41a3"))]])))
    ⟨Json.arr [], Json.str []⟩ none
    (JsData.array [JsData.num (JsNumber.finite false 0 [] 22),
      JsData.object [(lit "hex", JsData.str (lit "41a3"))]]) rfl

/-- C4: when the creation call resolves to a handle whose address is the string
`a` and the write succeeds, the file holds exactly an opening brace, a newline, two
spaces, `"address": `, the quoted `a`, a newline and a closing brace, whatever it
held before, and parsing that text gives the object whose only member `address` is
the string `a`. -/
theorem deployContract_writes_address (client : Client) (compiledContract : Artifact)
    (prior : Option JsString) (a : JsString)
    (h : client (deployOptions compiledContract) =
      Except.ok (ContractInstance.handle (JsData.str a))) :
    (deployContract (Binding.initialized client) compiledContract
        ⟨prior, WriteResult.written⟩).file =
      some (lit "\x7b\n  \"address\": " ++ quoteJSONString a ++ lit "\n\x7d") ∧
    parse (lit "\x7b\n  \"address\": " ++ quoteJSONString a ++ lit "\n\x7d") =
      some (Json.obj [(lit "address", Json.str a)]) ∧
    (Json.obj [(lit "address", Json.str a)]).member (lit "address") = some (Json.str a) := by
  refine ⟨deployContract_written client compiledContract prior (JsData.str a) _ h
    (stringify2_address a), ?_, ?_⟩
  · exact parse_stringify2 (JsData.str a) _ (stringify2_address a)
  · simp [Json.member, List.lookup]

/-- C4 at an address with a quote and a line feed in it, over a file holding `old`. -/
theorem deployContract_writes_address_witness :
    (deployContract (Binding.initialized (fun _ => Except.ok
          (ContractInstance.handle (JsData.str (lit "T\"x\n")))))
        ⟨Json.arr [], Json.str []⟩ ⟨some (lit "old"), WriteResult.written⟩).file =
      some (lit "\x7b\n  \"address\": " ++ quoteJSONString (lit "T\"x\n") ++ lit "\n\x7d") ∧
    parse (lit "\x7b\n  \"address\": " ++ quoteJSONString (lit "T\"x\n") ++ lit "\n\x7d") =
      some (Json.obj [(lit "address", Json.str (lit "T\"x\n"))]) ∧
    (Json.obj [(lit "address", Json.str (lit "T\"x\n"))]).member (lit "address") =
      some (Json.str (lit "T\"x\n")) :=
  deployContract_writes_address
    (fun _ => Except.ok (ContractInstance.handle (JsData.str (lit "T\"x\n"))))
    ⟨Json.arr [], Json.str []⟩ (some (lit "old")) (lit "T\"x\n") rfl

/-- C5 (counterexample): with a creation call that resolves and a write that fails
with `EACCES`, the error does not leave `deployContract` uncaught: the `catch`
clause logs it and ends the process with status 1. -/
theorem write_error_is_caught :
    (deployContract (Binding.initialized (fun _ => Except.ok
          (ContractInstance.handle (JsData.str (lit "TLsV52sRDL79HXGGm9yzwKibb6BeruhUzy")))))
        ⟨Json.arr [], Json.str []⟩
        ⟨none, WriteResult.failed (lit "EACCES: permission denied") none⟩).completion =
      Completion.exited 1 ∧
    (deployContract (Binding.initialized (fun _ => Except.ok
          (ContractInstance.handle (JsData.str (lit "TLsV52sRDL79HXGGm9yzwKibb6BeruhUzy")))))
        ⟨Json.arr [], Json.str []⟩
        ⟨none, WriteResult.failed (lit "EACCES: permission denied") none⟩).stderr =
      [[JsValue.str (lit "Error deploying contract:"),
        JsValue.str (lit "EACCES: permission denied")]] ∧
    ¬ ∃ e, (deployContract (Binding.initialized (fun _ => Except.ok
          (ContractInstance.handle (JsData.str (lit "TLsV52sRDL79HXGGm9yzwKibb6BeruhUzy")))))
        ⟨Json.arr [], Json.str []⟩
        ⟨none, WriteResult.failed (lit "EACCES: permission denied") none⟩).completion =
      Completion.threw e := by
  refine ⟨rfl, rfl, ?_⟩
  rintro ⟨e, he⟩
  have h1 : Completion.exited 1 = Completion.threw e := Eq.trans rfl he
  exact absurd h1 (by simp)

/-- C5 (amended): when the creation call resolves to a handle, the record is
serialized and the write fails with a file-system error, the `catch` clause of
`deployContract` handles it: the message is logged after `Error deploying contract:`,
the process ends through `process.exit(1)`, and no exception leaves the function. -/
theorem deployContract_write_failure (client : Client) (compiledContract : Artifact)
    (prior : Option JsString) (address : JsData) (data message : JsString)
    (left : Option JsString)
    (h : client (deployOptions compiledContract) =
      Except.ok (ContractInstance.handle address))
    (hs : stringify2 (JsData.object [(lit "address", address)]) = Except.ok (some data)) :
    (deployContract (Binding.initialized client) compiledContract
        ⟨prior, WriteResult.failed message left⟩).completion = Completion.exited 1 ∧
    (deployContract (Binding.initialized client) compiledContract
        ⟨prior, WriteResult.failed message left⟩).stderr =
      [[JsValue.str (lit "Error deploying contract:"), JsValue.str message]] ∧
    exitStatus (deployContract (Binding.initialized client) compiledContract
        ⟨prior, WriteResult.failed message left⟩).completion = 1 := by
  simp [deployContract, Binding.read, h, ContractInstance.address, hs, catchClause,
    Thrown.message, exitStatus]

/-- C5 (amended) at a write that fails with `ENOSPC` and leaves an empty file. -/
theorem deployContract_write_failure_witness :
    (deployContract (Binding.initialized (fun _ => Except.ok
          (ContractInstance.handle (JsData.str (lit "TLsV52sRDL79HXGGm9yzwKibb6BeruhUzy")))))
        ⟨Json.arr [], Json.str []⟩
        ⟨some (lit "old"), WriteResult.failed (lit "ENOSPC") (some [])⟩).completion =
      Completion.exited 1 ∧
    (deployContract (Binding.initialized (fun _ => Except.ok
          (ContractInstance.handle (JsData.str (lit "TLsV52sRDL79HXGGm9yzwKibb6BeruhUzy")))))
        ⟨Json.arr [], Json.str []⟩
        ⟨some (lit "old"), WriteResult.failed (lit "ENOSPC") (some [])⟩).stderr =
      [[JsValue.str (lit "Error deploying contract:"), JsValue.str (lit "ENOSPC")]] ∧
    exitStatus (deployContract (Binding.initialized (fun _ => Except.ok
          (ContractInstance.handle (JsData.str (lit "TLsV52sRDL79HXGGm9yzwKibb6BeruhUzy")))))
        ⟨Json.arr [], Json.str []⟩
        ⟨some (lit "old"), WriteResult.failed (lit "ENOSPC") (some [])⟩).completion = 1 :=
  deployContract_write_failure
    (fun _ => Except.ok
      (ContractInstance.handle (JsData.str (lit "TLsV52sRDL79HXGGm9yzwKibb6BeruhUzy"))))
    ⟨Json.arr [], Json.str []⟩ (some (lit "old"))
    (JsData.str (lit "TLsV52sRDL79HXGGm9yzwKibb6BeruhUzy"))
    (lit "\x7b\n  \"address\": \"TLsV52sRDL79HXGGm9yzwKibb6BeruhUzy\"\n\x7d") (lit "ENOSPC")
    (some []) rfl rfl

/-! ## The network tables: properties -/

theorem lookup_cons_ne {β : Type} (k k' : JsString) (v : β) (l : List (JsString × β))
    (h : k ≠ k') : List.lookup k ((k', v) :: l) = List.lookup k l := by
  have hb : (k == k') = false := beq_eq_false_iff_ne.2 h
  simp [List.lookup, hb]

theorem lookup_cons_self {β : Type} (k : JsString) (v : β) (l : List (JsString × β)) :
    List.lookup k ((k, v) :: l) = some v := by
  simp [List.lookup]

/-- C6: two environments that give the same values to the signing-key variables
and to `HOST_PORT` give the same record, or the same absence of a record, for every
profile name, in the table of `tronbox.js` and in that of `tronbox-config.js`. -/
theorem selectProfile_deterministic (env env' : Env) (name : JsString)
    (h : ∀ v ∈ [lit "PRIVATE_KEY_MAINNET", lit "PRIVATE_KEY_SHASTA", lit "PRIVATE_KEY_NILE",
      lit "PRIVATE_KEY", lit "HOST_PORT"], env v = env' v) :
    selectProfile (Tronbox.networks env) name = selectProfile (Tronbox.networks env') name ∧
    selectProfile (TronboxConfig.networks env) name =
      selectProfile (TronboxConfig.networks env') name := by
  have h1 := h (lit "PRIVATE_KEY_MAINNET") (by simp)
  have h2 := h (lit "PRIVATE_KEY_SHASTA") (by simp)
  have h3 := h (lit "PRIVATE_KEY_NILE") (by simp)
  have h4 := h (lit "PRIVATE_KEY") (by simp)
  have h5 := h (lit "HOST_PORT") (by simp)
  have e1 : Tronbox.networks env = Tronbox.networks env' := by
    simp only [Tronbox.networks, Tronbox.port, Env.get, h1, h2, h3, h5]
  have e2 : TronboxConfig.networks env = TronboxConfig.networks env' := by
    simp only [TronboxConfig.networks, Env.get, h4]
  rw [e1, e2]
  exact ⟨rfl, rfl⟩

/-- C6 at two environments that differ in a variable the tables do not read. -/
theorem selectProfile_deterministic_witness :
    selectProfile (Tronbox.networks (fun _ => none)) (lit "nile") =
      selectProfile (Tronbox.networks (Env.set (fun _ => none) (lit "HOME") (some (lit "/root"))))
        (lit "nile") ∧
    selectProfile (TronboxConfig.networks (fun _ => none)) (lit "nile") =
      selectProfile
        (TronboxConfig.networks (Env.set (fun _ => none) (lit "HOME") (some (lit "/root"))))
        (lit "nile") :=
  selectProfile_deterministic (fun _ => none)
    (Env.set (fun _ => none) (lit "HOME") (some (lit "/root"))) (lit "nile") (by decide)

/-- C7 (counterexample): `constructor` is not a key of either table, yet the read
`networks["constructor"]` does not fail: it yields the member every object literal
inherits from `Object.prototype`. -/
theorem inherited_name_is_found :
    lit "constructor" ∉ (Tronbox.networks (fun _ => none)).map Prod.fst ∧
    readProfile (Tronbox.networks (fun _ => none)) (lit "constructor") =
      Selected.inherited (lit "constructor") ∧
    lit "constructor" ∉ (TronboxConfig.networks (fun _ => none)).map Prod.fst ∧
    readProfile (TronboxConfig.networks (fun _ => none)) (lit "constructor") =
      Selected.inherited (lit "constructor") := by
  decide

/-- C7 (amended): for a name that is not a key of the table, in either table, the
read `networks[name]` yields no record of the table: it yields `undefined`, unless
the name is one of the names inherited from `Object.prototype`, for which it yields
the inherited member; and a run of the deployer whose creation call rejects does
not return: it ends the process with exit status 1. -/
theorem unknown_profile_read (env : Env) (table : List (JsString × Record))
    (name : JsString)
    (ht : table = Tronbox.networks env ∨ table = TronboxConfig.networks env)
    (hn : name ∉ table.map Prod.fst)
    (client : Client) (compiledContract : Artifact) (w : World) (e : Thrown)
    (hr : client (deployOptions compiledContract) = Except.error e) :
    (Tronbox.networks env).map Prod.fst =
      [lit "mainnet", lit "shasta", lit "nile", lit "development"] ∧
    (TronboxConfig.networks env).map Prod.fst = [lit "shasta", lit "mainnet"] ∧
    readProfile table name =
      (if name ∈ objectPrototypeNames then Selected.inherited name else Selected.undefined) ∧
    (∀ r, readProfile table name ≠ Selected.record r) ∧
    (deployContract (Binding.initialized client) compiledContract w).completion ≠
      Completion.returned ∧
    exitStatus (deployContract (Binding.initialized client) compiledContract w).completion
      = 1 := by
  have hsel : selectProfile table name = none := by
    rcases ht with rfl | rfl
    · simp only [Tronbox.networks, List.map, List.mem_cons, List.mem_singleton, not_or,
        List.not_mem_nil, or_false] at hn
      obtain ⟨a, b, c, d⟩ := hn
      simp [selectProfile, Tronbox.networks, lookup_cons_ne, a, b, c, d]
    · simp only [TronboxConfig.networks, List.map, List.mem_cons, List.mem_singleton, not_or,
        List.not_mem_nil, or_false] at hn
      obtain ⟨a, b⟩ := hn
      simp [selectProfile, TronboxConfig.networks, lookup_cons_ne, a, b]
  have hread : readProfile table name =
      (if name ∈ objectPrototypeNames then Selected.inherited name else Selected.undefined) := by
    simp only [readProfile, hsel]
  refine ⟨rfl, rfl, hread, ?_, ?_, ?_⟩
  · intro r
    rw [hread]
    split_ifs <;> simp
  · cases e <;>
      simp [deployContract, Binding.read, hr, catchClause, Thrown.message]
  · cases e <;>
      simp [deployContract, Binding.read, hr, catchClause, Thrown.message, exitStatus]

/-- C7 (amended) at the name `testnet` in the table of `tronbox.js`. -/
theorem unknown_profile_read_witness :
    (Tronbox.networks (fun _ => none)).map Prod.fst =
      [lit "mainnet", lit "shasta", lit "nile", lit "development"] ∧
    (TronboxConfig.networks (fun _ => none)).map Prod.fst = [lit "shasta", lit "mainnet"] ∧
    readProfile (Tronbox.networks (fun _ => none)) (lit "testnet") =
      (if lit "testnet" ∈ objectPrototypeNames then Selected.inherited (lit "testnet")
        else Selected.undefined) ∧
    (∀ r, readProfile (Tronbox.networks (fun _ => none)) (lit "testnet") ≠ Selected.record r) ∧
    (deployContract (Binding.initialized (fun _ => Except.error (Thrown.error "REVERT")))
        ⟨Json.arr [], Json.str []⟩ ⟨none, WriteResult.written⟩).completion ≠
      Completion.returned ∧
    exitStatus (deployContract
        (Binding.initialized (fun _ => Except.error (Thrown.error "REVERT")))
        ⟨Json.arr [], Json.str []⟩ ⟨none, WriteResult.written⟩).completion = 1 :=
  unknown_profile_read (fun _ => none) (Tronbox.networks (fun _ => none)) (lit "testnet")
    (Or.inl rfl) (by decide) (fun _ => Except.error (Thrown.error "REVERT"))
    ⟨Json.arr [], Json.str []⟩ ⟨none, WriteResult.written⟩ (Thrown.error "REVERT") rfl

/-- C8: in every environment, each record of the table of `tronbox.js` (fields
`userFeePercentage`, `feeLimit`) and of the table of `tronbox-config.js` (fields
`consume_user_resource_percent`, `fee_limit`) is within the limits. -/
theorem networks_withinLimits (env : Env) :
    List.Forall (fun p => withinLimits (lit "userFeePercentage") (lit "feeLimit") p.2)
      (Tronbox.networks env) ∧
    List.Forall
      (fun p => withinLimits (lit "consume_user_resource_percent") (lit "fee_limit") p.2)
      (TronboxConfig.networks env) := by
  refine ⟨⟨?_, ?_, ?_, ?_⟩, ⟨?_, ?_⟩⟩
  · exact ⟨⟨100, rfl, by decide⟩, rfl, _, rfl⟩
  · exact ⟨⟨50, rfl, by decide⟩, rfl, _, rfl⟩
  · exact ⟨⟨100, rfl, by decide⟩, rfl, _, rfl⟩
  · exact ⟨⟨0, rfl, by decide⟩, rfl, _, rfl⟩
  · exact ⟨⟨30, rfl, by decide⟩, rfl, _, rfl⟩
  · exact ⟨⟨30, rfl, by decide⟩, rfl, _, rfl⟩

/-- The variable a profile of `tronbox.js` reads its key from, when it reads it
from the environment. -/
theorem Tronbox.readsKeyFrom_cases (p x : JsString) (hp : readsKeyFrom Tronbox.networks p x) :
    (p = lit "mainnet" ∧ x = lit "PRIVATE_KEY_MAINNET") ∨
    (p = lit "shasta" ∧ x = lit "PRIVATE_KEY_SHASTA") ∨
    (p = lit "nile" ∧ x = lit "PRIVATE_KEY_NILE") := by
  obtain ⟨r, hs, hg⟩ := hp (fun k => if k = x then some [1] else none)
  have hx : Env.get (fun k => if k = x then some [1] else none) x = JsValue.str [1] := by
    simp [Env.get]
  have key : ∀ k : JsString,
      Env.get (fun k => if k = x then some [1] else none) k = JsValue.str [1] → x = k := by
    intro k hk
    by_cases hkx : k = x
    · exact hkx.symm
    · simp [Env.get, hkx] at hk
  rw [hx] at hg
  by_cases h1 : p = lit "mainnet"
  · subst h1
    rw [selectProfile, Tronbox.networks, lookup_cons_self] at hs
    injection hs with hs
    subst hs
    rw [Record.get, lookup_cons_self] at hg
    exact Or.inl ⟨rfl, key _ hg⟩
  by_cases h2 : p = lit "shasta"
  · subst h2
    rw [selectProfile, Tronbox.networks, lookup_cons_ne _ _ _ _ (by decide),
      lookup_cons_self] at hs
    injection hs with hs
    subst hs
    rw [Record.get, lookup_cons_self] at hg
    exact Or.inr (Or.inl ⟨rfl, key _ hg⟩)
  by_cases h3 : p = lit "nile"
  · subst h3
    rw [selectProfile, Tronbox.networks, lookup_cons_ne _ _ _ _ (by decide),
      lookup_cons_ne _ _ _ _ (by decide), lookup_cons_self] at hs
    injection hs with hs
    subst hs
    rw [Record.get, lookup_cons_self] at hg
    exact Or.inr (Or.inr ⟨rfl, key _ hg⟩)
  by_cases h4 : p = lit "development"
  · subst h4
    rw [selectProfile, Tronbox.networks, lookup_cons_ne _ _ _ _ (by decide),
      lookup_cons_ne _ _ _ _ (by decide), lookup_cons_ne _ _ _ _ (by decide),
      lookup_cons_self] at hs
    injection hs with hs
    subst hs
    rw [Record.get, lookup_cons_self] at hg
    exact absurd hg (by decide)
  · rw [selectProfile, Tronbox.networks, lookup_cons_ne _ _ _ _ h1,
      lookup_cons_ne _ _ _ _ h2, lookup_cons_ne _ _ _ _ h3, lookup_cons_ne _ _ _ _ h4] at hs
    simp [List.lookup] at hs

/-- C9 (counterexample): in the table of `tronbox-config.js` the two different
profiles `shasta` and `mainnet` read their signing key from one and the same
variable, `PRIVATE_KEY`. -/
theorem config_profiles_share_key_variable :
    ¬ (∀ p q x y : JsString, p ≠ q → readsKeyFrom TronboxConfig.networks p x →
      readsKeyFrom TronboxConfig.networks q y → x ≠ y) := by
  intro h
  exact h (lit "shasta") (lit "mainnet") (lit "PRIVATE_KEY") (lit "PRIVATE_KEY") (by decide)
    (fun _ => ⟨_, rfl, rfl⟩) (fun _ => ⟨_, rfl, rfl⟩) rfl

/-- C9 (amended): in the table of `tronbox.js`, two different profiles that read
their signing key from the environment read it from different variables; in the
table of `tronbox-config.js`, `shasta` and `mainnet` both read it from `PRIVATE_KEY`. -/
theorem key_variables (p q x y : JsString) (hpq : p ≠ q)
    (hp : readsKeyFrom Tronbox.networks p x) (hq : readsKeyFrom Tronbox.networks q y) :
    x ≠ y ∧
    readsKeyFrom TronboxConfig.networks (lit "shasta") (lit "PRIVATE_KEY") ∧
    readsKeyFrom TronboxConfig.networks (lit "mainnet") (lit "PRIVATE_KEY") := by
  refine ⟨?_, fun _ => ⟨_, rfl, rfl⟩, fun _ => ⟨_, rfl, rfl⟩⟩
  rcases Tronbox.readsKeyFrom_cases p x hp with ⟨rfl, rfl⟩ | ⟨rfl, rfl⟩ | ⟨rfl, rfl⟩ <;>
    rcases Tronbox.readsKeyFrom_cases q y hq with ⟨rfl, rfl⟩ | ⟨rfl, rfl⟩ | ⟨rfl, rfl⟩ <;>
    first
      | exact absurd rfl hpq
      | decide

/-- C9 (amended) at the profiles `mainnet` and `shasta` of `tronbox.js`. -/
theorem key_variables_witness :
    lit "PRIVATE_KEY_MAINNET" ≠ lit "PRIVATE_KEY_SHASTA" ∧
    readsKeyFrom TronboxConfig.networks (lit "shasta") (lit "PRIVATE_KEY") ∧
    readsKeyFrom TronboxConfig.networks (lit "mainnet") (lit "PRIVATE_KEY") :=
  key_variables (lit "mainnet") (lit "shasta") (lit "PRIVATE_KEY_MAINNET")
    (lit "PRIVATE_KEY_SHASTA") (by decide) (fun _ => ⟨_, rfl, rfl⟩) (fun _ => ⟨_, rfl, rfl⟩)

/-- C10: the `fullHost` of the profile `development` is `http://127.0.0.1:` followed
by the value of `HOST_PORT` when that is set and not empty, and by `9090` otherwise;
setting or removing `HOST_PORT` leaves the `fullHost` of `mainnet`, `shasta` and
`nile` as it is. -/
theorem development_fullHost (env : Env) (v : Option JsString) :
    (∃ r, selectProfile (Tronbox.networks env) (lit "development") = some r ∧
      r.get (lit "fullHost") = JsValue.str (lit "http://127.0.0.1:" ++
        (match env (lit "HOST_PORT") with
          | some s => if s = [] then lit "9090" else s
          | none => lit "9090"))) ∧
    (selectProfile (Tronbox.networks (env.set (lit "HOST_PORT") v)) (lit "mainnet")).map
        (fun r => r.get (lit "fullHost")) =
      (selectProfile (Tronbox.networks env) (lit "mainnet")).map
        (fun r => r.get (lit "fullHost")) ∧
    (selectProfile (Tronbox.networks (env.set (lit "HOST_PORT") v)) (lit "shasta")).map
        (fun r => r.get (lit "fullHost")) =
      (selectProfile (Tronbox.networks env) (lit "shasta")).map
        (fun r => r.get (lit "fullHost")) ∧
    (selectProfile (Tronbox.networks (env.set (lit "HOST_PORT") v)) (lit "nile")).map
        (fun r => r.get (lit "fullHost")) =
      (selectProfile (Tronbox.networks env) (lit "nile")).map
        (fun r => r.get (lit "fullHost")) := by
  refine ⟨⟨_, rfl, ?_⟩, rfl, rfl, rfl⟩
  have h9 : numberToString 9090 = lit "9090" := by decide
  have hget : Record.get
      [ (lit "privateKey", JsValue.str
          (lit "0000000000000000000000000000000000000000000000000000000000000001")),
        (lit "userFeePercentage", JsValue.num 0),
        (lit "feeLimit", JsValue.num (1000 * 1000000)),
        (lit "fullHost", JsValue.str (strPlus (lit "http://127.0.0.1:") (Tronbox.port env))),
        (lit "network_id", JsValue.str (lit "9")) ] (lit "fullHost") =
      JsValue.str (strPlus (lit "http://127.0.0.1:") (Tronbox.port env)) := rfl
  rw [hget]
  cases hp : env (lit "HOST_PORT") with
  | none => simp [Tronbox.port, Env.get, hp, jsOr, truthy, strPlus, toStr, h9]
  | some s =>
    by_cases hs : s = []
    · simp [Tronbox.port, Env.get, hp, jsOr, truthy, strPlus, toStr, h9, hs]
    · simp [Tronbox.port, Env.get, hp, jsOr, truthy, strPlus, toStr, hs]

end Hippo
